import Mathlib

/-!
A shallow embedding of the `statemachine` engine (statemachine.h)

The engine is a C++ template library.  The embedding keeps its data model:

* a C++ class used as a state kind or as an event kind is represented by its
  demangled type name, so that `typeid(a) == typeid(b)` is equality of names;
* a `std::shared_ptr` that may be null is an `Option`;
* the virtual callbacks of the application's states (`onEntry`, `run`, `onExit`),
  the template arguments `InitialState` and `TContext`, and the body of `doSetUp`
  are collected in a `MachineDef`;
* a callback is a function from the triggering event and the shared context to
  the new value of the context and the events it posted through `State::addEvent`
  (callbacks are assumed to return normally);
* exceptions leave the machine in the state it had when they were thrown, so
  operations return the machine together with a status;
* the `while` loop of `processEvents` may run forever when callbacks keep posting
  events, so it is driven by a fuel argument.

Two ghost fields are added to the machine: `allocated`, the number of state
objects created so far (it serves as the identity of a state instance), and
`calls`, the log of the callbacks invoked so far.
-/

namespace statemachine

/-- A C++ class (state kind or event kind), identified by its demangled type name. -/
abbrev TypeName := String

/-- An event object: its dynamic type and its application-defined payload. -/
structure Event where
  kind : TypeName
  payload : Nat
  deriving DecidableEq, Repr

/-- The pointer type `Event::Ptr`; `none` is the null pointer (the absent event). -/
abbrev EventPtr := Option Event

/-- A state object: its dynamic type and the serial number of its allocation. -/
structure State where
  kind : TypeName
  id : Nat
  deriving DecidableEq, Repr

/-- One callback invocation: which callback, on which state object, with which event. -/
inductive Call where
  | onEntry (s : State) (event : EventPtr)
  | run (s : State) (event : EventPtr)
  | onExit (s : State) (event : EventPtr)
  deriving DecidableEq, Repr

/-- The exceptions the engine can throw: `std::runtime_error` with its message, and
`std::bad_typeid`, thrown by `typeid(*p)` when `p` is a null pointer. -/
inductive Error where
  | runtime_error (what : String)
  | bad_typeid
  deriving DecidableEq, Repr

/-- The class `Transition<TContext, from, to, event>`: its three type arguments. -/
structure Transition where
  fromState : TypeName
  toState : TypeName
  event : TypeName
  deriving DecidableEq, Repr

/-- A virtual callback of the application's states, selected by the dynamic type of
the state: from the triggering event and the shared context to the context it
leaves and the events it posted with `State::addEvent`, in order. -/
abbrev Callback (Ctx : Type) := TypeName → EventPtr → Option Ctx → Option Ctx × List EventPtr

/-- What the application supplies to `StateMachine<InitialState, TContext>`. -/
structure MachineDef (Ctx : Type) where
  /-- The template argument `InitialState`. -/
  InitialState : TypeName
  /-- The name of the template argument `TContext`. -/
  contextName : TypeName
  /-- The value built by `std::make_shared<TContext>()`. -/
  makeContext : Ctx
  /-- Whether a state class derives from `ExitState<TContext>`. -/
  isExitState : TypeName → Bool
  onEntry : Callback Ctx
  run : Callback Ctx
  onExit : Callback Ctx
  /-- The body of `doSetUp`: the `SM_ADD_TRANSITION` calls, in order. -/
  doSetUp : List Transition

/-- The fields of `StateMachine`, followed by the two ghost fields. -/
structure StateMachine (Ctx : Type) where
  mContext : Option Ctx
  mName : String
  mCurrentState : Option State
  mTransitions : List Transition
  mEvents : List EventPtr
  allocated : Nat
  calls : List Call

/-- How an operation of the machine ends. -/
inductive Status where
  | returned
  | threw (e : Error)
  | undefinedBehaviour
  | outOfFuel
  deriving DecidableEq, Repr

/-- The machine after an operation, and how the operation ended. -/
structure Outcome (Ctx : Type) where
  machine : StateMachine Ctx
  status : Status

/-- How one iteration of the `while` loop of `processEvents` ends: the loop goes on,
the function returns, or an exception leaves it. -/
inductive Flow (Ctx : Type) where
  | next (m : StateMachine Ctx)
  | returned (m : StateMachine Ctx)
  | threw (m : StateMachine Ctx) (e : Error)

/-- The machine a loop iteration leaves behind. -/
def Flow.machine {Ctx : Type} : Flow Ctx → StateMachine Ctx
  | .next m => m
  | .returned m => m
  | .threw m _ => m

namespace Transition

/-- `Transition::createToState`: `std::make_shared<to>()`, the new object getting the
next allocation serial. -/
def createToState (t : Transition) (serial : Nat) : State :=
  { kind := t.toState, id := serial }

/-- `Transition::isSameState`: `typeid(*fromState) == typeid(to)` (for a non-null
`fromState`). -/
def isSameState (t : Transition) (fromState : State) : Bool :=
  fromState.kind == t.toState

/-- `Transition::canDoTransition`, for a non-null `fromState`:
`typeid(*tfrom) == typeid(from) && typeid(*etrigger) == typeid(event)`.  The right
operand is evaluated only when the left one holds, and throws `std::bad_typeid`
when the event pointer is null. -/
def canDoTransition (t : Transition) (fromState : State) (triggerEvent : EventPtr) :
    Except Error Bool :=
  if fromState.kind == t.fromState then
    match triggerEvent with
    | none => .error .bad_typeid
    | some e => .ok (e.kind == t.event)
  else
    .ok false

/-- `Transition::fromStateToString`. -/
def fromStateToString (t : Transition) : String := t.fromState

/-- `Transition::toStateToString`. -/
def toStateToString (t : Transition) : String := t.toState

/-- `Transition::eventToString`. -/
def eventToString (t : Transition) : String := t.event

/-- `Transition::isTransitionToExitState`:
`std::is_base_of<ExitState<TContext>, to>::value`. -/
def isTransitionToExitState {Ctx : Type} (d : MachineDef Ctx) (t : Transition) : Bool :=
  d.isExitState t.toState

/-- `Transition::name`: the demangled name of the instantiated class template. -/
def name {Ctx : Type} (d : MachineDef Ctx) (t : Transition) : String :=
  "statemachine::Transition<" ++ d.contextName ++ "," ++ t.fromState ++ "," ++ t.toState
    ++ "," ++ t.event ++ ">"

/-- `TransitionBase::isAmbiguous`, called on `this` with the argument `transition`. -/
def isAmbiguous (this transition : Transition) : Bool :=
  transition.fromStateToString == this.fromStateToString &&
  transition.eventToString == this.eventToString &&
  transition.toStateToString != this.toStateToString

end Transition

namespace StateMachine

variable {Ctx : Type}

/-- A call `s->cb(event)` of a virtual callback on the state object `s`: the context
takes the value the callback leaves, the posted events are pushed on the queue,
and the call is logged. -/
def invoke (m : StateMachine Ctx) (cb : Callback Ctx) (entry : State → EventPtr → Call)
    (s : State) (event : EventPtr) : StateMachine Ctx :=
  { m with
    mContext := (cb s.kind event m.mContext).1
    mEvents := m.mEvents ++ (cb s.kind event m.mContext).2
    calls := m.calls ++ [entry s event] }

/-- `StateMachine::addTransition`.  The loop variable of the range-for is also called
`transition` and hides the parameter inside the loop body, so `isAmbiguous` is
called on every stored entry with that same entry as argument; the parameter is
visible again at `push_back`. -/
def addTransition (d : MachineDef Ctx) (m : StateMachine Ctx) (transition : Transition) :
    Except Error (StateMachine Ctx) :=
  match m.mTransitions.find? (fun transition => transition.isAmbiguous transition) with
  | some transition =>
      .error (.runtime_error (m.mName ++ ": Ambiguous transition found " ++ transition.name d))
  | none => .ok { m with mTransitions := m.mTransitions ++ [transition] }

/-- The `SM_ADD_TRANSITION` calls of a `doSetUp` body, in order; an exception thrown
by one of them leaves `doSetUp`. -/
def runSetUp (d : MachineDef Ctx) : List Transition → StateMachine Ctx → Outcome Ctx
  | [], m => { machine := m, status := .returned }
  | t :: ts, m =>
    match addTransition d m t with
    | .error e => { machine := m, status := .threw e }
    | .ok m1 => runSetUp d ts m1

/-- `StateMachine::start`.  (`shared_from_this` requires the machine to be owned by
a `shared_ptr`, as in the test program.) -/
def start (d : MachineDef Ctx) (m : StateMachine Ctx) : Outcome Ctx :=
  let s : State := { kind := d.InitialState, id := m.allocated }
  let m1 := { m with
    mContext := some d.makeContext
    mCurrentState := some s
    allocated := m.allocated + 1 }
  let r := runSetUp d d.doSetUp m1
  match r.status with
  | .returned =>
    let m2 := r.machine.invoke d.onEntry Call.onEntry s none
    let m3 := m2.invoke d.run Call.run s none
    { machine := m3, status := .returned }
  | _ => r

/-- `StateMachine::addEvent`: `mEvents.push(event)`. -/
def addEvent (m : StateMachine Ctx) (event : EventPtr) : StateMachine Ctx :=
  { m with mEvents := m.mEvents ++ [event] }

/-- `StateMachine::noTransitionFound`, for a non-null current state: the exception it
throws.  `typeid(*etrigger)` throws `std::bad_typeid` for a null event. -/
def noTransitionFound (current : State) (event : EventPtr) : Error :=
  match event with
  | none => .bad_typeid
  | some e =>
    .runtime_error ("No transition found for state " ++ current.kind ++ " with event " ++ e.kind)

/-- The body of `if(transition->canDoTransition(mCurrentState, event))` in
`processEvents`, for the current state object `cur`. -/
def fire (d : MachineDef Ctx) (transition : Transition) (cur : State) (event : EventPtr)
    (m : StateMachine Ctx) : Flow Ctx :=
  if !transition.isSameState cur then
    let m1 := m.invoke d.onExit Call.onExit cur event
    let s := transition.createToState m1.allocated
    let m2 := { m1 with mCurrentState := some s, allocated := m1.allocated + 1 }
    let m3 := m2.invoke d.onEntry Call.onEntry s event
    if d.isExitState s.kind then
      -- an exit state will never call the run method
      .returned m3
    else
      .next (m3.invoke d.run Call.run s event)
  else
    .next (m.invoke d.run Call.run cur event)

/-- The `for(const auto& transition : mTransitions)` loop of `processEvents` over the
remaining entries, followed by `if(!transitionFound) noTransitionFound(event)`. -/
def forTransitions (d : MachineDef Ctx) (cur : State) (event : EventPtr) :
    List Transition → StateMachine Ctx → Flow Ctx
  | [], m => .threw m (noTransitionFound cur event)
  | transition :: rest, m =>
    match transition.canDoTransition cur event with
    | .error e => .threw m e
    | .ok true => fire d transition cur event m
    | .ok false => forTransitions d cur event rest m

/-- One iteration of `while(!mEvents.empty())` in `processEvents`: pop the front
event and dispatch it.  With a null current state both `canDoTransition` and
`noTransitionFound` evaluate `typeid` of a null pointer first. -/
def dispatch (d : MachineDef Ctx) (m : StateMachine Ctx) : Flow Ctx :=
  match m.mEvents with
  | [] => .next m
  | event :: pending =>
    let m1 := { m with mEvents := pending }
    match m1.mCurrentState with
    | none => .threw m1 .bad_typeid
    | some cur => forTransitions d cur event m1.mTransitions m1

/-- The loop `while(!mEvents.empty())` of `processEvents`, for at most `fuel`
iterations. -/
def drain (d : MachineDef Ctx) : Nat → StateMachine Ctx → Outcome Ctx
  | 0, m =>
    match m.mEvents with
    | [] => { machine := m, status := .returned }
    | _ :: _ => { machine := m, status := .outOfFuel }
  | fuel + 1, m =>
    match m.mEvents with
    | [] => { machine := m, status := .returned }
    | _ :: _ =>
      match dispatch d m with
      | .next m1 => drain d fuel m1
      | .returned m1 => { machine := m1, status := .returned }
      | .threw m1 e => { machine := m1, status := .threw e }

/-- `StateMachine::processEvents`.  `dynamic_cast<ExitState<TContext>*>` of a null
pointer is null, so an unstarted machine passes the guard; calling `run` through
the null pointer is undefined behaviour. -/
def processEvents (d : MachineDef Ctx) (fuel : Nat) (m : StateMachine Ctx) : Outcome Ctx :=
  match m.mCurrentState with
  | none =>
    match m.mEvents with
    | [] => { machine := m, status := .undefinedBehaviour }
    | _ :: _ => drain d fuel m
  | some cur =>
    if !d.isExitState cur.kind then
      match m.mEvents with
      | [] => { machine := m.invoke d.run Call.run cur none, status := .returned }
      | _ :: _ => drain d fuel m
    else
      { machine := m, status := .returned }

/-- `StateMachine::processEvent`: push the event when the pointer is not null, then
`processEvents`. -/
def processEvent (d : MachineDef Ctx) (fuel : Nat) (m : StateMachine Ctx)
    (event : EventPtr) : Outcome Ctx :=
  match event with
  | some e => processEvents d fuel { m with mEvents := m.mEvents ++ [some e] }
  | none => processEvents d fuel m

/-- The insertion of a name in its sorted position among the names of a
`std::set<std::string>`. -/
def insertInOrder (x : String) : List String → List String
  | [] => [x]
  | y :: ys => if x < y then x :: y :: ys else y :: insertInOrder x ys

/-- `std::set<std::string>::insert`: nothing happens when the name is already in the
set, otherwise it is inserted in its sorted position. -/
def setInsert (x : String) (set : List String) : List String :=
  if x ∈ set then set else insertInOrder x set

/-- The first loop of `generateDot`: the set `exitStates`, filled from the table. -/
def exitStates (d : MachineDef Ctx) (table : List Transition) : List String :=
  table.foldl
    (fun set transition =>
      if transition.isTransitionToExitState d then setInsert transition.toStateToString set
      else set)
    []

/-- The line `generateDot` writes for a name of the set `exitStates`. -/
def nodeLine (exitState : String) : String :=
  "\t" ++ exitState ++ " [style=\"rounded\", shape=doubleoctagon];" ++ "\n"

/-- The line `generateDot` writes for an entry of the table. -/
def edgeLine (transition : Transition) : String :=
  "\t" ++ transition.fromStateToString ++ " -> " ++ transition.toStateToString
    ++ " [label=\"" ++ transition.eventToString ++ "\"];" ++ "\n"

/-- `StateMachine::generateDot`: the machine it leaves, how it ended, and the text it
returns.  The table it clears and fills again is the member `mTransitions`. -/
def generateDot (d : MachineDef Ctx) (m : StateMachine Ctx) : Outcome Ctx × Option String :=
  let r := runSetUp d d.doSetUp { m with mTransitions := [] }
  match r.status with
  | .returned =>
    let m1 := r.machine
    let ss := "digraph " ++ m1.mName ++ " \x7b" ++ "\n"
    let ss := ss ++ "\tstart [shape=point];" ++ "\n"
    let ss := (exitStates d m1.mTransitions).foldl (fun ss exitState => ss ++ nodeLine exitState) ss
    let ss := ss ++ "\tstart -> " ++ d.InitialState ++ "\n"
    let ss := m1.mTransitions.foldl (fun ss transition => ss ++ edgeLine transition) ss
    let ss := ss ++ "\x7d" ++ "\n"
    ({ machine := m1, status := .returned }, some ss)
  | _ => (r, none)

/-- The events the loop of `processEvents` pops, in order, in at most `fuel`
iterations (an observation of `drain`). -/
def drainPopped (d : MachineDef Ctx) : Nat → StateMachine Ctx → List EventPtr
  | 0, _ => []
  | fuel + 1, m =>
    match m.mEvents with
    | [] => []
    | event :: _ =>
      match dispatch d m with
      | .next m1 => event :: drainPopped d fuel m1
      | _ => [event]

/-- The events pushed on the queue by the callbacks of one iteration: what the queue
holds after it behind the events that were pending. -/
def postedIn (d : MachineDef Ctx) (m : StateMachine Ctx) : List EventPtr :=
  (dispatch d m).machine.mEvents.drop (m.mEvents.length - 1)

/-- The events pushed on the queue by callbacks during the loop of `processEvents`,
in order, in at most `fuel` iterations (an observation of `drain`). -/
def drainPosted (d : MachineDef Ctx) : Nat → StateMachine Ctx → List EventPtr
  | 0, _ => []
  | fuel + 1, m =>
    match m.mEvents with
    | [] => []
    | _ :: _ =>
      match dispatch d m with
      | .next m1 => postedIn d m ++ drainPosted d fuel m1
      | _ => postedIn d m

/-- The constructor `StateMachine(name)`: null context and current state, empty table
and queue. -/
def create (name : String) : StateMachine Ctx :=
  { mContext := none, mName := name, mCurrentState := none, mTransitions := [],
    mEvents := [], allocated := 0, calls := [] }

end StateMachine

/-! ## Vocabulary of the specification -/

/-- The specification's `canFire(transition, currentState, event)`: the event's kind
is the transition's event kind and the state's kind is its from-kind. -/
def canFire (t : Transition) (s : State) (e : Event) : Prop :=
  e.kind = t.event ∧ s.kind = t.fromState

instance (t : Transition) (s : State) (e : Event) : Decidable (canFire t s e) :=
  inferInstanceAs (Decidable (_ ∧ _))

/-- The earliest entry of a table, in insertion order, that can fire. -/
def firstToFire (table : List Transition) (s : State) (e : Event) : Option Transition :=
  table.find? (fun t => decide (canFire t s e))

/-- The specification's ambiguity invariant: entries that agree on from-kind and
event-kind agree on to-kind. -/
def ambiguityInvariant (table : List Transition) : Prop :=
  ∀ a ∈ table, ∀ b ∈ table,
    a.fromState = b.fromState → a.event = b.event → a.toState = b.toState

instance (table : List Transition) : Decidable (ambiguityInvariant table) :=
  inferInstanceAs (Decidable (∀ a ∈ table, ∀ b ∈ table, _))

/-- The event a callback was called with. -/
def Call.event : Call → EventPtr
  | .onEntry _ event => event
  | .run _ event => event
  | .onExit _ event => event

/-- The concatenation of the pieces of a text. -/
def concat : List String → String
  | [] => ""
  | piece :: pieces => piece ++ concat pieces

/-- No callback of the definition posts an event. -/
def NoPosts {Ctx : Type} (d : MachineDef Ctx) : Prop :=
  ∀ (kind : TypeName) (event : EventPtr) (ctx : Option Ctx),
    (d.onEntry kind event ctx).2 = [] ∧ (d.run kind event ctx).2 = [] ∧
    (d.onExit kind event ctx).2 = []

/-- A call of the public interface made after `start`. -/
inductive Op where
  | processEvent (event : EventPtr) (fuel : Nat)
  | addEvent (event : EventPtr)
  deriving DecidableEq, Repr

/-- What a call pushes on the queue before anything else happens. -/
def Op.pushed : Op → List EventPtr
  | .processEvent (some e) _ => [some e]
  | .processEvent none _ => []
  | .addEvent event => [event]

/-- What a sequence of calls pushes on the queue, in order. -/
def pushedBy : List Op → List EventPtr
  | [] => []
  | op :: ops => op.pushed ++ pushedBy ops

/-- The effect of one call of the public interface. -/
def runOp {Ctx : Type} (d : MachineDef Ctx) (m : StateMachine Ctx) : Op → Outcome Ctx
  | .processEvent event fuel => m.processEvent d fuel event
  | .addEvent event => { machine := m.addEvent event, status := .returned }

/-- A sequence of calls, each made on the machine the previous one left, whether
or not that one threw: the final machine and the status of every call. -/
def runOps {Ctx : Type} (d : MachineDef Ctx) : List Op → StateMachine Ctx →
    StateMachine Ctx × List Status
  | [], m => (m, [])
  | op :: ops, m =>
    let r := runOp d m op
    let rest := runOps d ops r.machine
    (rest.1, r.status :: rest.2)

/-! ## The machine of test.cpp -/

/-- The class `CountingContext`. -/
structure CountingContext where
  mCounter : Int
  deriving DecidableEq, Repr

namespace CountingSM

/-- The `run` methods of test.cpp: `StartState::run` posts a `StartEvent`,
`CountState::run` increments the counter, the others only print. -/
def run : Callback CountingContext := fun kind _ ctx =>
  if kind = "StartState" then (ctx, [some { kind := "StartEvent", payload := 0 }])
  else if kind = "CountState" then
    (ctx.map (fun c => { c with mCounter := c.mCounter + 1 }), [])
  else (ctx, [])

/-- The `onEntry` and `onExit` methods of test.cpp only print. -/
def silent : Callback CountingContext := fun _ _ ctx => (ctx, [])

/-- The class `CountingSM` of test.cpp. -/
def definition : MachineDef CountingContext where
  InitialState := "StartState"
  contextName := "CountingContext"
  makeContext := { mCounter := 0 }
  isExitState := fun kind => kind == "QuitState"
  onEntry := silent
  run := run
  onExit := silent
  doSetUp :=
    [ { fromState := "StartState", toState := "CountState", event := "StartEvent" },
      { fromState := "CountState", toState := "StopState", event := "StopEvent" },
      { fromState := "StopState", toState := "CountState", event := "StartEvent" },
      { fromState := "StartState", toState := "QuitState", event := "QuitEvent" },
      { fromState := "CountState", toState := "QuitState", event := "QuitEvent" },
      { fromState := "StopState", toState := "QuitState", event := "QuitEvent" } ]

/-- The machine after `new CountingSM` and `start()`. -/
def started : StateMachine CountingContext :=
  (StateMachine.start definition (StateMachine.create "CountingSM")).machine

/-- A machine in `CountState` whose table has a self-loop entry first, then an
entry for the same state and event that leaves the state; two events are queued. -/
def looping : StateMachine CountingContext :=
  { mContext := some { mCounter := 0 }
    mName := "CountingSM"
    mCurrentState := some { kind := "CountState", id := 0 }
    mTransitions :=
      [ { fromState := "StartState", toState := "CountState", event := "StartEvent" },
        { fromState := "CountState", toState := "CountState", event := "StartEvent" },
        { fromState := "CountState", toState := "StopState", event := "StartEvent" } ]
    mEvents := [some { kind := "StartEvent", payload := 1 }, some { kind := "StopEvent", payload := 2 }]
    allocated := 1
    calls := [] }

/-- The started machine of test.cpp with a `QuitEvent` and then a `StopEvent` queued
instead of the `StartEvent`. -/
def quitting : StateMachine CountingContext :=
  { started with
    mEvents := [some { kind := "QuitEvent", payload := 0 }, some { kind := "StopEvent", payload := 0 }] }

/-- The started machine of test.cpp with a `StopEvent` and then a `StartEvent` queued. -/
def stopping : StateMachine CountingContext :=
  { started with
    mEvents := [some { kind := "StopEvent", payload := 0 }, some { kind := "StartEvent", payload := 0 }] }

/-- The started machine of test.cpp with an empty queue. -/
def idle : StateMachine CountingContext :=
  { started with mEvents := [] }

/-- A candidate entry that agrees with the first entry of test.cpp on from-kind and
event-kind and differs on the to-kind. -/
def conflicting : Transition :=
  { fromState := "StartState", toState := "StopState", event := "StartEvent" }

/-- The class of test.cpp with a `doSetUp` that registers two conflicting entries. -/
def ambiguous : MachineDef CountingContext :=
  { definition with
    doSetUp :=
      [ { fromState := "StartState", toState := "CountState", event := "StartEvent" },
        conflicting ] }

/-- The class of test.cpp with a `StartState::run` that posts nothing. -/
def quiet : MachineDef CountingContext :=
  { definition with run := silent }

/-- The machine made by `new CountingSM`, before `start()`. -/
def fresh : StateMachine CountingContext :=
  StateMachine.create "CountingSM"

/-- The calls of `main` in test.cpp after `start()`, every `processEvent` with the
given fuel. -/
def scenario (fuel : Nat) : List Op :=
  [ Op.processEvent (some { kind := "StopEvent", payload := 0 }) fuel,
    Op.processEvent (some { kind := "StartEvent", payload := 0 }) fuel,
    Op.processEvent none fuel,
    Op.processEvent (some { kind := "StopEvent", payload := 0 }) fuel,
    Op.processEvent (some { kind := "QuitEvent", payload := 0 }) fuel,
    Op.processEvent none fuel ]

/-- The started machine of test.cpp with an absent event queued before a
`QuitEvent`. -/
def nullQueued : StateMachine CountingContext :=
  { started with
    mEvents := [none, some { kind := "QuitEvent", payload := 0 }] }

/-- The machine of test.cpp with callbacks that post nothing, after `start()` and
`addEvent` with a null pointer. -/
def quietNull : StateMachine CountingContext :=
  (StateMachine.start quiet (StateMachine.create "CountingSM")).machine.addEvent none

/-- The machine of test.cpp parked in `QuitState`, one event still queued. -/
def parked : StateMachine CountingContext :=
  { started with
    mCurrentState := some { kind := "QuitState", id := 3 }
    allocated := 4 }

end CountingSM

end statemachine

/-! ## Lemmas on the matching loop -/

namespace statemachine

open StateMachine

variable {Ctx : Type}

theorem canDoTransition_present (t : Transition) (s : State) (e : Event) :
    t.canDoTransition s (some e) = .ok (decide (canFire t s e)) := by
  unfold Transition.canDoTransition canFire
  by_cases h : s.kind = t.fromState <;> simp [h, beq_eq_decide]

theorem forTransitions_append (d : MachineDef Ctx) (cur : State) (e : Event)
    (m : StateMachine Ctx) (post : List Transition) :
    ∀ pre : List Transition, (∀ u ∈ pre, ¬ canFire u cur e) →
      forTransitions d cur (some e) (pre ++ post) m = forTransitions d cur (some e) post m := by
  intro pre
  induction pre with
  | nil => intro _; rfl
  | cons u us ih =>
    intro h
    have hu : ¬ canFire u cur e := h u (List.mem_cons_self _ _)
    have hus : ∀ v ∈ us, ¬ canFire v cur e := fun v hv => h v (List.mem_cons_of_mem _ hv)
    simp only [List.cons_append, forTransitions, canDoTransition_present, hu, decide_False]
    exact ih hus

theorem forTransitions_fires (d : MachineDef Ctx) (cur : State) (e : Event)
    (m : StateMachine Ctx) (t : Transition) (post : List Transition) (h : canFire t cur e) :
    forTransitions d cur (some e) (t :: post) m = fire d t cur (some e) m := by
  simp only [forTransitions, canDoTransition_present, h, decide_True]

theorem forTransitions_first (d : MachineDef Ctx) (cur : State) (e : Event)
    (m : StateMachine Ctx) (t : Transition) :
    ∀ table : List Transition, firstToFire table cur e = some t →
      forTransitions d cur (some e) table m = fire d t cur (some e) m := by
  intro table
  induction table with
  | nil => intro h; simp [firstToFire] at h
  | cons u us ih =>
    intro h
    by_cases hu : canFire u cur e
    · have : u = t := by simpa [firstToFire, List.find?, hu] using h
      subst this
      exact forTransitions_fires d cur e m u us hu
    · have h2 : firstToFire us cur e = some t := by
        simpa [firstToFire, List.find?, hu] using h
      simp only [forTransitions, canDoTransition_present, hu, decide_False]
      exact ih h2

theorem forTransitions_no_match (d : MachineDef Ctx) (cur : State) (e : Event)
    (m : StateMachine Ctx) :
    ∀ table : List Transition, (∀ u ∈ table, ¬ canFire u cur e) →
      forTransitions d cur (some e) table m = .threw m (noTransitionFound cur (some e)) := by
  intro table h
  have := forTransitions_append d cur e m [] table h
  simpa [forTransitions] using this

theorem firstToFire_canFire {table : List Transition} {cur : State} {e : Event}
    {t : Transition} (h : firstToFire table cur e = some t) : canFire t cur e := by
  have := List.find?_some h
  simpa using this

theorem dispatch_present (d : MachineDef Ctx) (m : StateMachine Ctx) (cur : State)
    (e : Event) (pending : List EventPtr)
    (hcur : m.mCurrentState = some cur) (hq : m.mEvents = some e :: pending) :
    dispatch d m =
      forTransitions d cur (some e) m.mTransitions { m with mEvents := pending } := by
  simp only [dispatch, hq, hcur]

/-! ## Dispatch of one event -/

theorem fire_changes_state (d : MachineDef Ctx) (m : StateMachine Ctx) (cur : State)
    (event : EventPtr) (t : Transition) (hne : t.toState ≠ cur.kind) :
    fire d t cur event m =
      (let m1 := m.invoke d.onExit Call.onExit cur event
       let s : State := { kind := t.toState, id := m.allocated }
       let m2 := { m1 with mCurrentState := some s, allocated := m.allocated + 1 }
       let m3 := m2.invoke d.onEntry Call.onEntry s event
       if d.isExitState t.toState then Flow.returned m3
       else Flow.next (m3.invoke d.run Call.run s event)) := by
  have h : t.isSameState cur = false := by
    simp only [Transition.isSameState, beq_eq_false_iff_ne, ne_eq]
    exact fun h => hne h.symm
  simp [fire, h, Transition.createToState, invoke]

theorem fire_same_state (d : MachineDef Ctx) (m : StateMachine Ctx) (cur : State)
    (event : EventPtr) (t : Transition) (heq : t.toState = cur.kind) :
    fire d t cur event m = Flow.next (m.invoke d.run Call.run cur event) := by
  have h : t.isSameState cur = true := by
    simp [Transition.isSameState, heq]
  simp [fire, h]

theorem fire_throws_nothing (d : MachineDef Ctx) (m : StateMachine Ctx) (cur : State)
    (event : EventPtr) (t : Transition) (m1 : StateMachine Ctx) (err : Error) :
    fire d t cur event m ≠ Flow.threw m1 err := by
  by_cases h1 : t.isSameState cur = true <;>
    by_cases h2 : d.isExitState t.toState = true <;>
      simp [fire, h1, h2, Transition.createToState]

theorem processEvents_drains (d : MachineDef Ctx) (m : StateMachine Ctx) (cur : State)
    (event : EventPtr) (pending : List EventPtr) (fuel : Nat)
    (hcur : m.mCurrentState = some cur) (hlive : d.isExitState cur.kind = false)
    (hq : m.mEvents = event :: pending) :
    processEvents d fuel m = drain d fuel m := by
  simp [processEvents, hcur, hlive, hq]

/-- C1 (transition ordering).  The machine is at the head of a loop iteration with a
live current state `cur`, the present event `e` at the front of the queue, and the
first entry that can fire, `t`, leads to a kind that differs from the kind of `cur`
and is not terminal.  Then the iteration ends normally and the loop goes on; the
calls it made are exactly `onExit` on `cur`, `onEntry` on a state object allocated
in this iteration, of kind `t.toState`, and `run` on that same object, all with `e`;
that object is the current state afterwards; the three callbacks worked in this
order on the context of the machine; the events behind `e` are still queued, followed
by the events the callbacks posted; the table is unchanged.  `processEvents` called
on this machine runs this iteration first. -/
theorem C1_transition_ordering (d : MachineDef Ctx) (m : StateMachine Ctx) (cur : State)
    (e : Event) (pending : List EventPtr) (t : Transition)
    (hcur : m.mCurrentState = some cur) (hlive : d.isExitState cur.kind = false)
    (hq : m.mEvents = some e :: pending)
    (hfirst : firstToFire m.mTransitions cur e = some t)
    (hne : t.toState ≠ cur.kind) (hT : d.isExitState t.toState = false) :
    let fresh : State := { kind := t.toState, id := m.allocated }
    let left := d.onExit cur.kind (some e) m.mContext
    let entered := d.onEntry t.toState (some e) left.1
    let ran := d.run t.toState (some e) entered.1
    ∃ m1 : StateMachine Ctx,
      dispatch d m = Flow.next m1 ∧
      m1.calls = m.calls ++
        [Call.onExit cur (some e), Call.onEntry fresh (some e), Call.run fresh (some e)] ∧
      m1.mCurrentState = some fresh ∧ fresh ≠ cur ∧ m1.allocated = m.allocated + 1 ∧
      m1.mContext = ran.1 ∧
      m1.mEvents = pending ++ left.2 ++ entered.2 ++ ran.2 ∧
      m1.mTransitions = m.mTransitions ∧ m1.mName = m.mName ∧
      ∀ fuel : Nat, processEvents d (fuel + 1) m = drain d fuel m1 := by
  intro fresh left entered ran
  have hd : dispatch d m = Flow.next
      ((({ ({ m with mEvents := pending } : StateMachine Ctx).invoke d.onExit Call.onExit cur
              (some e) with
            mCurrentState := some fresh, allocated := m.allocated + 1 } :
          StateMachine Ctx).invoke d.onEntry Call.onEntry fresh (some e)).invoke
        d.run Call.run fresh (some e)) := by
    rw [dispatch_present d m cur e pending hcur hq, forTransitions_first d cur e _ t _ hfirst,
      fire_changes_state d _ cur (some e) t hne]
    simp [hT, fresh, invoke]
  refine ⟨_, hd, ?_, rfl, ?_, rfl, rfl, ?_, rfl, rfl, ?_⟩
  · simp [invoke]
  · intro h
    exact hne (congrArg State.kind h)
  · simp [invoke, left, entered, ran]
  · intro fuel
    rw [processEvents_drains d m cur (some e) pending (fuel + 1) hcur hlive hq]
    simp only [drain, hq, hd]

/-- C2 (self-loop).  When the first entry that can fire for the current state `cur`
and the present front event `e` has the kind of `cur` as its to-kind, the
iteration calls `run` on `cur` with `e` and nothing else: the log grows by that one
call, no state object is allocated, the current state is the same object, and the
loop goes on with the events behind `e` followed by those `run` posted. -/
theorem C2_self_loop (d : MachineDef Ctx) (m : StateMachine Ctx) (cur : State)
    (e : Event) (pending : List EventPtr) (t : Transition)
    (hcur : m.mCurrentState = some cur) (hq : m.mEvents = some e :: pending)
    (hfirst : firstToFire m.mTransitions cur e = some t)
    (hsame : t.toState = cur.kind) :
    dispatch d m = Flow.next
      { mContext := (d.run cur.kind (some e) m.mContext).1
        mName := m.mName
        mCurrentState := some cur
        mTransitions := m.mTransitions
        mEvents := pending ++ (d.run cur.kind (some e) m.mContext).2
        allocated := m.allocated
        calls := m.calls ++ [Call.run cur (some e)] } := by
  rw [dispatch_present d m cur e pending hcur hq, forTransitions_first d cur e _ t _ hfirst,
    fire_same_state d _ cur (some e) t hsame]
  simp [invoke, hcur]

/-- C3 (entering a terminal state halts the drain).  When the first entry that can
fire for the live current state `cur` and the present front event `e` leads to a
terminal kind, the iteration calls `onExit` on `cur` and `onEntry` on the new
state, both with `e`, and nothing else (no `run`), and `processEvents` returns
normally at once, for every amount of fuel left for further iterations: the events
that were behind `e` are all still queued, in order, at the front of the queue. -/
theorem C3_terminal_halts_drain (d : MachineDef Ctx) (m : StateMachine Ctx) (cur : State)
    (e : Event) (pending : List EventPtr) (t : Transition)
    (hcur : m.mCurrentState = some cur) (hlive : d.isExitState cur.kind = false)
    (hq : m.mEvents = some e :: pending)
    (hfirst : firstToFire m.mTransitions cur e = some t)
    (hT : d.isExitState t.toState = true) :
    let fresh : State := { kind := t.toState, id := m.allocated }
    let left := d.onExit cur.kind (some e) m.mContext
    let entered := d.onEntry t.toState (some e) left.1
    let parked : StateMachine Ctx :=
      { mContext := entered.1
        mName := m.mName
        mCurrentState := some fresh
        mTransitions := m.mTransitions
        mEvents := pending ++ left.2 ++ entered.2
        allocated := m.allocated + 1
        calls := m.calls ++ [Call.onExit cur (some e), Call.onEntry fresh (some e)] }
    dispatch d m = Flow.returned parked ∧
    ∀ fuel : Nat,
      drain d (fuel + 1) m = { machine := parked, status := Status.returned } ∧
      processEvents d (fuel + 1) m = { machine := parked, status := Status.returned } := by
  intro fresh left entered parked
  have hne : t.toState ≠ cur.kind := by
    intro h
    rw [h, hlive] at hT
    exact Bool.false_ne_true hT
  have hd : dispatch d m = Flow.returned parked := by
    rw [dispatch_present d m cur e pending hcur hq, forTransitions_first d cur e _ t _ hfirst,
      fire_changes_state d _ cur (some e) t hne]
    simp [hT, parked, fresh, left, entered, invoke]
  refine ⟨hd, fun fuel => ?_⟩
  have h1 : drain d (fuel + 1) m = { machine := parked, status := Status.returned } := by
    simp only [drain, hq, hd]
  exact ⟨h1, by rw [processEvents_drains d m cur (some e) pending (fuel + 1) hcur hlive hq, h1]⟩

/-- Witness of C1 on the started machine of test.cpp: `StartState` to `CountState`
on the `StartEvent` that `StartState::run` posted. -/
theorem C1_transition_ordering_witness :
    ∃ m1 : StateMachine CountingContext,
      dispatch CountingSM.definition CountingSM.started = Flow.next m1 ∧
      m1.calls = CountingSM.started.calls ++
        [Call.onExit { kind := "StartState", id := 0 } (some { kind := "StartEvent", payload := 0 }),
         Call.onEntry { kind := "CountState", id := 1 } (some { kind := "StartEvent", payload := 0 }),
         Call.run { kind := "CountState", id := 1 } (some { kind := "StartEvent", payload := 0 })] ∧
      m1.mCurrentState = some { kind := "CountState", id := 1 } ∧
      m1.mContext = some { mCounter := 1 } := by
  obtain ⟨m1, hd, hc, hs, -, -, hx, -⟩ :=
    C1_transition_ordering CountingSM.definition CountingSM.started
      { kind := "StartState", id := 0 } { kind := "StartEvent", payload := 0 } []
      { fromState := "StartState", toState := "CountState", event := "StartEvent" }
      (by decide) (by decide) (by decide) (by decide) (by decide) (by decide)
  exact ⟨m1, hd, hc, hs, hx⟩

/-- Witness of C2: the self-loop entry of `CountingSM.looping` is the first that can
fire. -/
theorem C2_self_loop_witness :
    dispatch CountingSM.definition CountingSM.looping = Flow.next
      { CountingSM.looping with
        mContext := some { mCounter := 1 }
        mEvents := [some { kind := "StopEvent", payload := 2 }]
        calls := [Call.run { kind := "CountState", id := 0 }
          (some { kind := "StartEvent", payload := 1 })] } :=
  C2_self_loop CountingSM.definition CountingSM.looping
    { kind := "CountState", id := 0 } { kind := "StartEvent", payload := 1 }
    [some { kind := "StopEvent", payload := 2 }]
    { fromState := "CountState", toState := "CountState", event := "StartEvent" }
    (by decide) (by decide) (by decide) (by decide)

/-- Witness of C3: `StartState` to the terminal `QuitState`, a `StopEvent` staying
queued. -/
theorem C3_terminal_halts_drain_witness :
    (processEvents CountingSM.definition 5 CountingSM.quitting).status = Status.returned ∧
    (processEvents CountingSM.definition 5 CountingSM.quitting).machine.mEvents =
      [some { kind := "StopEvent", payload := 0 }] ∧
    (processEvents CountingSM.definition 5 CountingSM.quitting).machine.mCurrentState =
      some { kind := "QuitState", id := 1 } := by
  have h := (C3_terminal_halts_drain CountingSM.definition CountingSM.quitting
      { kind := "StartState", id := 0 } { kind := "QuitEvent", payload := 0 }
      [some { kind := "StopEvent", payload := 0 }]
      { fromState := "StartState", toState := "QuitState", event := "QuitEvent" }
      (by decide) (by decide) (by decide) (by decide) (by decide)).2 4
  rw [h.2]
  exact ⟨rfl, by decide, by decide⟩

/-! ## Terminal parking -/

theorem runOp_parked (d : MachineDef Ctx) (m : StateMachine Ctx) (cur : State) (op : Op)
    (hcur : m.mCurrentState = some cur) (hT : d.isExitState cur.kind = true) :
    runOp d m op =
      { machine := { m with mEvents := m.mEvents ++ op.pushed }, status := Status.returned } := by
  rcases m with ⟨ctx, name, current, table, queue, serial, log⟩
  simp only at hcur
  subst hcur
  cases op with
  | processEvent event fuel =>
    cases event with
    | none => simp [runOp, processEvent, processEvents, hT, Op.pushed]
    | some e => simp [runOp, processEvent, processEvents, hT, Op.pushed]
  | addEvent event => simp [runOp, addEvent, Op.pushed]

/-- C4 (terminal parking).  Once the current state is of a terminal kind, after every
sequence of `processEvent` (with or without an event, with any fuel) and `addEvent`
calls the current state is the same object, the callback log, the context, the
allocation count and the table are what they were, every call returned normally,
and the queue is the old queue followed by the events the calls pushed: nothing
was removed from it. -/
theorem C4_terminal_parking (d : MachineDef Ctx) (cur : State) (ops : List Op) :
    ∀ m : StateMachine Ctx, m.mCurrentState = some cur → d.isExitState cur.kind = true →
      (runOps d ops m).1.mCurrentState = some cur ∧
      (runOps d ops m).1.calls = m.calls ∧
      (runOps d ops m).1.mContext = m.mContext ∧
      (runOps d ops m).1.allocated = m.allocated ∧
      (runOps d ops m).1.mTransitions = m.mTransitions ∧
      (runOps d ops m).1.mEvents = m.mEvents ++ pushedBy ops ∧
      ∀ st ∈ (runOps d ops m).2, st = Status.returned := by
  induction ops with
  | nil =>
    intro m hcur _
    simp [runOps, pushedBy, hcur]
  | cons op ops ih =>
    intro m hcur hT
    have hop := runOp_parked d m cur op hcur hT
    obtain ⟨h1, h2, h3, h4, h5, h6, h7⟩ :=
      ih { m with mEvents := m.mEvents ++ op.pushed } hcur hT
    simp only [runOps, hop, pushedBy]
    refine ⟨h1, h2, h3, h4, h5, ?_, ?_⟩
    · rw [h6, List.append_assoc]
    · intro st hst
      rcases List.mem_cons.mp hst with h | h
      · exact h
      · exact h7 st h

/-- Witness of C4 on the parked machine of test.cpp. -/
theorem C4_terminal_parking_witness :
    (runOps CountingSM.definition
        [Op.processEvent none 3, Op.addEvent (some { kind := "StopEvent", payload := 0 }),
         Op.processEvent (some { kind := "QuitEvent", payload := 0 }) 3]
        CountingSM.parked).1.mEvents =
      [some { kind := "StartEvent", payload := 0 }, some { kind := "StopEvent", payload := 0 },
       some { kind := "QuitEvent", payload := 0 }] ∧
    (runOps CountingSM.definition
        [Op.processEvent none 3, Op.addEvent (some { kind := "StopEvent", payload := 0 }),
         Op.processEvent (some { kind := "QuitEvent", payload := 0 }) 3]
        CountingSM.parked).1.calls = CountingSM.parked.calls := by
  have h := C4_terminal_parking CountingSM.definition { kind := "QuitState", id := 3 }
    [Op.processEvent none 3, Op.addEvent (some { kind := "StopEvent", payload := 0 }),
     Op.processEvent (some { kind := "QuitEvent", payload := 0 }) 3]
    CountingSM.parked (by decide) (by decide)
  exact ⟨h.2.2.2.2.2.1, h.2.1⟩

/-! ## No matching entry -/

/-- C5 (no match).  The current state is `cur` and the present event `e` is at the
front of the queue.  If no entry of the table can fire for them, the iteration
throws the `runtime_error` whose message is "No transition found for state", the kind
of `cur`, "with event", the kind of `e`; the machine it leaves is the old one with `e`
removed from the queue and nothing else changed (same current state object, no
call logged, the events behind `e` still queued in order), and `processEvents`
on a live state ends with that exception without dispatching them.  If some entry
can fire, the iteration throws nothing. -/
theorem C5_no_match (d : MachineDef Ctx) (m : StateMachine Ctx) (cur : State)
    (e : Event) (pending : List EventPtr)
    (hcur : m.mCurrentState = some cur) (hq : m.mEvents = some e :: pending) :
    ((∀ t ∈ m.mTransitions, ¬ canFire t cur e) →
      dispatch d m = Flow.threw { m with mEvents := pending }
        (Error.runtime_error
          ("No transition found for state " ++ cur.kind ++ " with event " ++ e.kind)) ∧
      (d.isExitState cur.kind = false → ∀ fuel : Nat,
        processEvents d (fuel + 1) m =
          { machine := { m with mEvents := pending }
            status := Status.threw (Error.runtime_error
              ("No transition found for state " ++ cur.kind ++ " with event " ++ e.kind)) })) ∧
    ((∃ t ∈ m.mTransitions, canFire t cur e) →
      ∀ (m1 : StateMachine Ctx) (err : Error), dispatch d m ≠ Flow.threw m1 err) := by
  constructor
  · intro hno
    have hd : dispatch d m = Flow.threw { m with mEvents := pending }
        (Error.runtime_error
          ("No transition found for state " ++ cur.kind ++ " with event " ++ e.kind)) := by
      rw [dispatch_present d m cur e pending hcur hq,
        forTransitions_no_match d cur e _ m.mTransitions hno]
      rfl
    refine ⟨hd, fun hlive fuel => ?_⟩
    rw [processEvents_drains d m cur (some e) pending (fuel + 1) hcur hlive hq]
    simp only [drain, hq, hd]
  · rintro ⟨t, ht, hfire⟩ m1 err
    have hsome : ∃ u, firstToFire m.mTransitions cur e = some u := by
      cases h : firstToFire m.mTransitions cur e with
      | some u => exact ⟨u, rfl⟩
      | none =>
        have := List.find?_eq_none.mp h t ht
        simp [hfire] at this
    obtain ⟨u, hu⟩ := hsome
    rw [dispatch_present d m cur e pending hcur hq, forTransitions_first d cur e _ u _ hu]
    exact fire_throws_nothing d _ cur (some e) u m1 err

/-- Witness of C5: on the started machine of test.cpp no entry fires for `StartState`
and `StopEvent`, and an entry fires for `StartState` and `StartEvent`. -/
theorem C5_no_match_witness :
    dispatch CountingSM.definition CountingSM.stopping =
      Flow.threw { CountingSM.stopping with mEvents := [some { kind := "StartEvent", payload := 0 }] }
        (Error.runtime_error "No transition found for state StartState with event StopEvent") ∧
    ∀ (m1 : StateMachine CountingContext) (err : Error),
      dispatch CountingSM.definition CountingSM.started ≠ Flow.threw m1 err :=
  ⟨((C5_no_match CountingSM.definition CountingSM.stopping { kind := "StartState", id := 0 }
      { kind := "StopEvent", payload := 0 } [some { kind := "StartEvent", payload := 0 }]
      (by decide) (by decide)).1 (by decide)).1,
   (C5_no_match CountingSM.definition CountingSM.started { kind := "StartState", id := 0 }
      { kind := "StartEvent", payload := 0 } [] (by decide) (by decide)).2 (by decide)⟩

/-! ## Registration -/

theorem isAmbiguous_self (t : Transition) : t.isAmbiguous t = false := by
  simp [Transition.isAmbiguous]

theorem addTransition_appends (d : MachineDef Ctx) (m : StateMachine Ctx) (t : Transition) :
    addTransition d m t = Except.ok { m with mTransitions := m.mTransitions ++ [t] } := by
  have h : m.mTransitions.find? (fun u => u.isAmbiguous u) = none := by
    rw [List.find?_eq_none]
    intro u _
    simp [isAmbiguous_self]
  simp only [addTransition, h]

theorem runSetUp_appends (d : MachineDef Ctx) :
    ∀ (ts : List Transition) (m : StateMachine Ctx),
      runSetUp d ts m =
        { machine := { m with mTransitions := m.mTransitions ++ ts }, status := Status.returned } := by
  intro ts
  induction ts with
  | nil => intro m; simp [runSetUp]
  | cons t ts ih =>
    intro m
    simp only [runSetUp, addTransition_appends, ih, List.append_assoc, List.singleton_append]

/-- C6, evaluated on the code: the table of the started machine of test.cpp holds
`StartState -> CountState` on `StartEvent`; the candidate `StartState -> StopState`
on `StartEvent` conflicts with it (`isAmbiguous` holds between them), and
`addTransition` does not fail but appends the candidate. -/
theorem C6_addTransition_accepts_conflict :
    (∃ stored ∈ CountingSM.started.mTransitions,
      stored.fromState = CountingSM.conflicting.fromState ∧
      stored.event = CountingSM.conflicting.event ∧
      stored.toState ≠ CountingSM.conflicting.toState ∧
      stored.isAmbiguous CountingSM.conflicting = true) ∧
    addTransition CountingSM.definition CountingSM.started CountingSM.conflicting =
      Except.ok { CountingSM.started with
        mTransitions := CountingSM.definition.doSetUp ++ [CountingSM.conflicting] } := by
  refine ⟨by decide, ?_⟩
  rw [addTransition_appends]
  rfl

/-- C7, evaluated on the code: registering two conflicting entries on the empty table
of a new machine succeeds, and the table reached holds both, so it violates the
ambiguity invariant. -/
theorem C7_reachable_table_is_ambiguous :
    (runSetUp CountingSM.ambiguous CountingSM.ambiguous.doSetUp
      (StateMachine.create "CountingSM")).status = Status.returned ∧
    (runSetUp CountingSM.ambiguous CountingSM.ambiguous.doSetUp
      (StateMachine.create "CountingSM")).machine.mTransitions =
        CountingSM.ambiguous.doSetUp ∧
    ¬ ambiguityInvariant (runSetUp CountingSM.ambiguous CountingSM.ambiguous.doSetUp
      (StateMachine.create "CountingSM")).machine.mTransitions := by
  refine ⟨by decide, by decide, by decide⟩

/-! ## First match wins -/

theorem fire_allocates_at_most_one (d : MachineDef Ctx) (m : StateMachine Ctx) (cur : State)
    (event : EventPtr) (t : Transition) :
    (fire d t cur event m).machine.allocated ≤ m.allocated + 1 := by
  by_cases h1 : t.isSameState cur = true <;>
    by_cases h2 : d.isExitState t.toState = true <;>
      simp [fire, h1, h2, Transition.createToState, Flow.machine, invoke]

theorem forTransitions_allocates_at_most_one (d : MachineDef Ctx) (cur : State)
    (event : EventPtr) (m : StateMachine Ctx) :
    ∀ table : List Transition,
      (forTransitions d cur event table m).machine.allocated ≤ m.allocated + 1 := by
  intro table
  induction table with
  | nil => simp [forTransitions, Flow.machine]
  | cons u us ih =>
    simp only [forTransitions]
    cases h : u.canDoTransition cur event with
    | error err => simp [Flow.machine]
    | ok b =>
      cases b with
      | true => exact fire_allocates_at_most_one d m cur event u
      | false => exact ih

theorem dispatch_allocates_at_most_one (d : MachineDef Ctx) (m : StateMachine Ctx) :
    (dispatch d m).machine.allocated ≤ m.allocated + 1 := by
  cases hq : m.mEvents with
  | nil => simp [dispatch, hq, Flow.machine]
  | cons event pending =>
    cases hcur : m.mCurrentState with
    | none => simp [dispatch, hq, hcur, Flow.machine]
    | some cur =>
      have h := forTransitions_allocates_at_most_one d cur event
        { m with mEvents := pending } m.mTransitions
      simpa [dispatch, hq, hcur] using h

/-- C8 (first match wins).  `canDoTransition` on a state and a present event answers
whether the event's kind is the entry's event kind and the state's kind is its
from-kind.  When the table is `pre ++ t :: post`, no entry of `pre` can fire for
the current state and the front event, and `t` can, the iteration is the firing of
`t` (whatever `post` holds, entries that can fire included).  An iteration creates
at most one state object, for every machine. -/
theorem C8_first_match_wins (d : MachineDef Ctx) (m : StateMachine Ctx) (cur : State)
    (e : Event) (pending : List EventPtr) (pre post : List Transition) (t : Transition)
    (hcur : m.mCurrentState = some cur) (hq : m.mEvents = some e :: pending)
    (htable : m.mTransitions = pre ++ t :: post)
    (hpre : ∀ u ∈ pre, ¬ canFire u cur e) (ht : canFire t cur e) :
    (∀ (u : Transition) (s : State) (e1 : Event),
      (u.canDoTransition s (some e1) = Except.ok true ↔
        (e1.kind = u.event ∧ s.kind = u.fromState)) ∧
      (u.canDoTransition s (some e1) = Except.ok false ↔
        ¬ (e1.kind = u.event ∧ s.kind = u.fromState))) ∧
    dispatch d m = fire d t cur (some e) { m with mEvents := pending } ∧
    firstToFire m.mTransitions cur e = some t ∧
    ∀ m0 : StateMachine Ctx, (dispatch d m0).machine.allocated ≤ m0.allocated + 1 := by
  refine ⟨?_, ?_, ?_, dispatch_allocates_at_most_one d⟩
  · intro u s e1
    rw [canDoTransition_present]
    simp [canFire]
  · rw [dispatch_present d m cur e pending hcur hq, htable,
      forTransitions_append d cur e _ (t :: post) pre hpre,
      forTransitions_fires d cur e _ t post ht]
  · rw [htable, firstToFire, List.find?_append]
    have h1 : List.find? (fun u => decide (canFire u cur e)) pre = none := by
      rw [List.find?_eq_none]
      intro u hu
      simpa using hpre u hu
    simp [h1, List.find?, ht]

/-- Witness of C8 on `CountingSM.looping`, whose table holds two entries that can fire
for `CountState` and `StartEvent`: the earlier one, the self-loop, is used. -/
theorem C8_first_match_wins_witness :
    dispatch CountingSM.definition CountingSM.looping =
      fire CountingSM.definition
        { fromState := "CountState", toState := "CountState", event := "StartEvent" }
        { kind := "CountState", id := 0 } (some { kind := "StartEvent", payload := 1 })
        { CountingSM.looping with mEvents := [some { kind := "StopEvent", payload := 2 }] } :=
  (C8_first_match_wins CountingSM.definition CountingSM.looping
    { kind := "CountState", id := 0 } { kind := "StartEvent", payload := 1 }
    [some { kind := "StopEvent", payload := 2 }]
    [{ fromState := "StartState", toState := "CountState", event := "StartEvent" }]
    [{ fromState := "CountState", toState := "StopState", event := "StartEvent" }]
    { fromState := "CountState", toState := "CountState", event := "StartEvent" }
    (by decide) (by decide) (by decide) (by decide) (by decide)).2.1

/-! ## Bootstrap and idle tick -/

/-- C9 (bootstrap).  For every machine definition and every machine, `start` returns
normally; it sets the context to a new one, makes a newly allocated state of the
initial kind the current state, appends the entries of `doSetUp` to the table, and
calls `onEntry` and then `run` on that state, each once, with the absent event, and
nothing else; the current state is that state when it returns, and the queue is
the old queue followed by the events the two callbacks posted. -/
theorem C9_bootstrap (d : MachineDef Ctx) (m : StateMachine Ctx) :
    let initial : State := { kind := d.InitialState, id := m.allocated }
    let entered := d.onEntry d.InitialState none (some d.makeContext)
    let ran := d.run d.InitialState none entered.1
    start d m =
      { machine :=
          { mContext := ran.1
            mName := m.mName
            mCurrentState := some initial
            mTransitions := m.mTransitions ++ d.doSetUp
            mEvents := m.mEvents ++ entered.2 ++ ran.2
            allocated := m.allocated + 1
            calls := m.calls ++ [Call.onEntry initial none, Call.run initial none] }
        status := Status.returned } := by
  intro initial entered ran
  simp [start, runSetUp_appends, invoke, initial, entered, ran]

/-- C10 (idle tick).  With a live current state `cur` and an empty queue,
`processEvent` without an event returns normally, for every fuel; it calls `run`
on `cur` with the absent event, once, and nothing else; the current state is the
same object, no state is allocated, and the queue holds exactly the events that
`run` posted. -/
theorem C10_idle_tick (d : MachineDef Ctx) (m : StateMachine Ctx) (cur : State) (fuel : Nat)
    (hcur : m.mCurrentState = some cur) (hlive : d.isExitState cur.kind = false)
    (hq : m.mEvents = []) :
    processEvent d fuel m none =
      { machine :=
          { mContext := (d.run cur.kind none m.mContext).1
            mName := m.mName
            mCurrentState := some cur
            mTransitions := m.mTransitions
            mEvents := (d.run cur.kind none m.mContext).2
            allocated := m.allocated
            calls := m.calls ++ [Call.run cur none] }
        status := Status.returned } := by
  simp [processEvent, processEvents, hcur, hlive, hq, invoke]

/-- Witness of C10 on the started machine of test.cpp with an empty queue: the
`StartEvent` posted by `StartState::run` stays queued. -/
theorem C10_idle_tick_witness :
    processEvent CountingSM.definition 0 CountingSM.idle none =
      { machine :=
          { CountingSM.idle with
            mEvents := [some { kind := "StartEvent", payload := 0 }]
            calls := CountingSM.idle.calls ++ [Call.run { kind := "StartState", id := 0 } none] }
        status := Status.returned } :=
  C10_idle_tick CountingSM.definition CountingSM.idle { kind := "StartState", id := 0 } 0
    (by decide) (by decide) (by decide)

/-! ## The queue during one iteration -/

theorem fire_effect (d : MachineDef Ctx) (m : StateMachine Ctx) (cur : State)
    (event : EventPtr) (t : Transition) :
    ∃ (posted : List EventPtr) (made : List Call),
      (fire d t cur event m).machine.mEvents = m.mEvents ++ posted ∧
      (fire d t cur event m).machine.calls = m.calls ++ made ∧
      (∀ c ∈ made, c.event = event) ∧
      (NoPosts d → posted = []) := by
  by_cases h1 : t.isSameState cur = true
  · refine ⟨(d.run cur.kind event m.mContext).2, [Call.run cur event], ?_, ?_, ?_, ?_⟩
    · simp [fire, h1, Flow.machine, invoke]
    · simp [fire, h1, Flow.machine, invoke]
    · simp [Call.event]
    · intro hno
      exact (hno _ _ _).2.1
  · by_cases h2 : d.isExitState t.toState = true
    · refine ⟨(d.onExit cur.kind event m.mContext).2 ++
          (d.onEntry t.toState event (d.onExit cur.kind event m.mContext).1).2,
        [Call.onExit cur event, Call.onEntry (t.createToState m.allocated) event],
        ?_, ?_, ?_, ?_⟩
      · simp [fire, h1, h2, Flow.machine, invoke, Transition.createToState]
      · simp [fire, h1, h2, Flow.machine, invoke, Transition.createToState]
      · simp [Call.event]
      · intro hno
        simp [(hno _ _ _).1, (hno _ _ _).2.2]
    · refine ⟨(d.onExit cur.kind event m.mContext).2 ++
          (d.onEntry t.toState event (d.onExit cur.kind event m.mContext).1).2 ++
          (d.run t.toState event
            (d.onEntry t.toState event (d.onExit cur.kind event m.mContext).1).1).2,
        [Call.onExit cur event, Call.onEntry (t.createToState m.allocated) event,
          Call.run (t.createToState m.allocated) event],
        ?_, ?_, ?_, ?_⟩
      · simp [fire, h1, h2, Flow.machine, invoke, Transition.createToState]
      · simp [fire, h1, h2, Flow.machine, invoke, Transition.createToState]
      · simp [Call.event]
      · intro hno
        simp [(hno _ _ _).1, (hno _ _ _).2.2, (hno _ _ _).2.1]

theorem forTransitions_effect (d : MachineDef Ctx) (cur : State) (event : EventPtr)
    (m : StateMachine Ctx) :
    ∀ table : List Transition,
      ∃ (posted : List EventPtr) (made : List Call),
        (forTransitions d cur event table m).machine.mEvents = m.mEvents ++ posted ∧
        (forTransitions d cur event table m).machine.calls = m.calls ++ made ∧
        (∀ c ∈ made, c.event = event) ∧
        (NoPosts d → posted = []) := by
  intro table
  induction table with
  | nil => exact ⟨[], [], by simp [forTransitions, Flow.machine]⟩
  | cons u us ih =>
    simp only [forTransitions]
    cases h : u.canDoTransition cur event with
    | error err => exact ⟨[], [], by simp [Flow.machine]⟩
    | ok b =>
      cases b with
      | true => exact fire_effect d m cur event u
      | false => exact ih

theorem dispatch_effect (d : MachineDef Ctx) (m : StateMachine Ctx) (front : EventPtr)
    (pending : List EventPtr) (hq : m.mEvents = front :: pending) :
    ∃ (posted : List EventPtr) (made : List Call),
      (dispatch d m).machine.mEvents = pending ++ posted ∧
      (dispatch d m).machine.calls = m.calls ++ made ∧
      (∀ c ∈ made, c.event = front) ∧
      (NoPosts d → posted = []) := by
  cases hcur : m.mCurrentState with
  | none => exact ⟨[], [], by simp [dispatch, hq, hcur, Flow.machine]⟩
  | some cur =>
    have h := forTransitions_effect d cur front { m with mEvents := pending } m.mTransitions
    simpa [dispatch, hq, hcur] using h

theorem drain_empty (d : MachineDef Ctx) (fuel : Nat) (m : StateMachine Ctx)
    (hq : m.mEvents = []) :
    drain d fuel m = { machine := m, status := Status.returned } := by
  cases fuel <;> simp [drain, hq]

/-- C17 (dead ambiguity check).  `isAmbiguous` called on an entry with that entry
as argument is false; the loop of `addTransition`, which makes only such calls,
finds nothing on any table; so `addTransition` never fails, for every machine and
every candidate, and leaves the old table with the candidate appended at the end
and nothing else changed. -/
theorem C17_dead_ambiguity_check (d : MachineDef Ctx) (m : StateMachine Ctx)
    (candidate : Transition) :
    (∀ t : Transition, t.isAmbiguous t = false) ∧
    m.mTransitions.find? (fun stored => stored.isAmbiguous stored) = none ∧
    addTransition d m candidate =
      Except.ok { m with mTransitions := m.mTransitions ++ [candidate] } := by
  refine ⟨isAmbiguous_self, ?_, addTransition_appends d m candidate⟩
  rw [List.find?_eq_none]
  intro u _
  simp [isAmbiguous_self]

/-! ## The absent event -/

theorem forTransitions_absent (d : MachineDef Ctx) (cur : State) (m : StateMachine Ctx) :
    ∀ table : List Transition,
      forTransitions d cur none table m = Flow.threw m Error.bad_typeid := by
  intro table
  induction table with
  | nil => rfl
  | cons u us ih =>
    by_cases h : cur.kind = u.fromState
    · simp [forTransitions, Transition.canDoTransition, h]
    · simp [forTransitions, Transition.canDoTransition, h, ih]

/-- C19 (the absent event matches no transition).  `canDoTransition` never answers
true for the null event pointer, for any entry and state.  `processEvent` without
an event pushes nothing: it is `processEvents` on the machine as it is.  When a null
pointer pushed with `addEvent` reaches the front of the queue and is dispatched, the
iteration makes no transition and calls no callback: the machine it leaves is the
old one without that queue entry (same current state object, same log), and the
iteration ends with the exception `std::bad_typeid`. -/
theorem C19_absent_event_matches_nothing (d : MachineDef Ctx) (m : StateMachine Ctx)
    (cur : State) (pending : List EventPtr)
    (hcur : m.mCurrentState = some cur) (hq : m.mEvents = none :: pending) :
    (∀ (t : Transition) (s : State), t.canDoTransition s none ≠ Except.ok true) ∧
    (∀ (n : StateMachine Ctx) (fuel : Nat), processEvent d fuel n none = processEvents d fuel n) ∧
    (∀ n : StateMachine Ctx, (n.addEvent none).mEvents = n.mEvents ++ [none]) ∧
    dispatch d m = Flow.threw { m with mEvents := pending } Error.bad_typeid ∧
    (dispatch d m).machine.mCurrentState = some cur ∧
    (dispatch d m).machine.calls = m.calls ∧
    (dispatch d m).machine.allocated = m.allocated := by
  have hd : dispatch d m = Flow.threw { m with mEvents := pending } Error.bad_typeid := by
    simp only [dispatch, hq, hcur]
    exact forTransitions_absent d cur _ m.mTransitions
  refine ⟨?_, fun n fuel => rfl, fun n => rfl, hd, ?_, ?_, ?_⟩
  · intro t s
    by_cases h : s.kind = t.fromState <;> simp [Transition.canDoTransition, h]
  · rw [hd]; exact hcur
  · rw [hd]; rfl
  · rw [hd]; rfl

/-- Witness of C19 on the started machine of test.cpp with a null pointer at the
front of the queue. -/
theorem C19_absent_event_matches_nothing_witness :
    dispatch CountingSM.definition CountingSM.nullQueued =
      Flow.threw
        { CountingSM.nullQueued with mEvents := [some { kind := "QuitEvent", payload := 0 }] }
        Error.bad_typeid :=
  (C19_absent_event_matches_nothing CountingSM.definition CountingSM.nullQueued
    { kind := "StartState", id := 0 } [some { kind := "QuitEvent", payload := 0 }]
    (by decide) (by decide)).2.2.2.1

/-! ## Graph export -/

theorem foldl_append_concat (f : α → String) :
    ∀ (l : List α) (init : String),
      l.foldl (fun ss x => ss ++ f x) init = init ++ concat (l.map f) := by
  intro l
  induction l with
  | nil => intro init; simp [concat]
  | cons x xs ih =>
    intro init
    simp only [List.foldl_cons, List.map_cons, concat, ih, String.append_assoc]

theorem mem_insertInOrder (x z : String) :
    ∀ l : List String, z ∈ insertInOrder x l ↔ z = x ∨ z ∈ l := by
  intro l
  induction l with
  | nil => simp [insertInOrder]
  | cons y ys ih =>
    by_cases h : x < y
    · simp [insertInOrder, h]
    · simp only [insertInOrder, h, if_false, List.mem_cons, ih]
      tauto

theorem insertInOrder_perm (x : String) :
    ∀ l : List String, (insertInOrder x l).Perm (x :: l) := by
  intro l
  induction l with
  | nil => simp [insertInOrder]
  | cons y ys ih =>
    by_cases h : x < y
    · simp [insertInOrder, h]
    · simp only [insertInOrder, h, if_false]
      exact (List.Perm.cons y ih).trans (List.Perm.swap x y ys)

theorem mem_setInsert (x z : String) (l : List String) :
    z ∈ setInsert x l ↔ z = x ∨ z ∈ l := by
  unfold setInsert
  by_cases h : x ∈ l
  · simp only [h, if_true]
    constructor
    · exact Or.inr
    · rintro (rfl | hz)
      · exact h
      · exact hz
  · simp only [h, if_false, mem_insertInOrder]

theorem nodup_setInsert (x : String) (l : List String) (hl : l.Nodup) :
    (setInsert x l).Nodup := by
  unfold setInsert
  by_cases h : x ∈ l
  · simpa only [h, if_true] using hl
  · simp only [h, if_false]
    exact (insertInOrder_perm x l).nodup_iff.mpr (List.nodup_cons.mpr ⟨h, hl⟩)

theorem exitStates_fold (d : MachineDef Ctx) :
    ∀ (table : List Transition) (set : List String), set.Nodup →
      (table.foldl
        (fun set transition =>
          if transition.isTransitionToExitState d then
            setInsert transition.toStateToString set
          else set) set).Nodup ∧
      ∀ x : String,
        x ∈ table.foldl
          (fun set transition =>
            if transition.isTransitionToExitState d then
              setInsert transition.toStateToString set
            else set) set ↔
        x ∈ set ∨ ∃ t ∈ table, d.isExitState t.toState = true ∧ t.toState = x := by
  intro table
  induction table with
  | nil => intro set hset; simp [hset]
  | cons u us ih =>
    intro set hset
    by_cases hu : d.isExitState u.toState = true
    · have hn := nodup_setInsert u.toState set hset
      obtain ⟨h1, h2⟩ := ih (setInsert u.toState set) hn
      simp only [List.foldl_cons, Transition.isTransitionToExitState, hu, if_true,
        Transition.toStateToString] at h1 h2 ⊢
      refine ⟨h1, fun x => ?_⟩
      rw [h2 x, mem_setInsert]
      constructor
      · rintro ((rfl | hx) | ⟨t, ht, hT, rfl⟩)
        · exact Or.inr ⟨u, List.mem_cons_self _ _, hu, rfl⟩
        · exact Or.inl hx
        · exact Or.inr ⟨t, List.mem_cons_of_mem _ ht, hT, rfl⟩
      · rintro (hx | ⟨t, ht, hT, rfl⟩)
        · exact Or.inl (Or.inr hx)
        · rcases List.mem_cons.mp ht with rfl | ht
          · exact Or.inl (Or.inl rfl)
          · exact Or.inr ⟨t, ht, hT, rfl⟩
    · obtain ⟨h1, h2⟩ := ih set hset
      simp only [List.foldl_cons, Transition.isTransitionToExitState, hu,
        Transition.toStateToString, Bool.false_eq_true, if_false] at h1 h2 ⊢
      refine ⟨h1, fun x => ?_⟩
      rw [h2 x]
      constructor
      · rintro (hx | ⟨t, ht, hT, rfl⟩)
        · exact Or.inl hx
        · exact Or.inr ⟨t, List.mem_cons_of_mem _ ht, hT, rfl⟩
      · rintro (hx | ⟨t, ht, hT, rfl⟩)
        · exact Or.inl hx
        · rcases List.mem_cons.mp ht with rfl | ht
          · exact absurd hT hu
          · exact Or.inr ⟨t, ht, hT, rfl⟩

theorem generateDot_eq (d : MachineDef Ctx) (m : StateMachine Ctx) :
    generateDot d m =
      ({ machine := { m with mTransitions := d.doSetUp }, status := Status.returned },
        some ("digraph " ++ m.mName ++ " \x7b" ++ "\n" ++ ("\tstart [shape=point];" ++ "\n")
          ++ concat ((exitStates d d.doSetUp).map nodeLine)
          ++ ("\tstart -> " ++ d.InitialState ++ "\n")
          ++ concat (d.doSetUp.map edgeLine)
          ++ ("\x7d" ++ "\n"))) := by
  simp only [generateDot, runSetUp_appends, List.nil_append, foldl_append_concat,
    String.append_assoc]

/-- C12 (graph export, edges).  For every definition and every machine `generateDot`
returns normally, and the text it returns is: the two opening lines, the node
lines of the exit states, the start edge into the name of the initial kind, then
one edge line per entry registered by `doSetUp`, in registration order (so as many
edge lines as entries, duplicates included, the line of the i-th entry in i-th
place), then the closing line.  The line of an entry is its from-name, the arrow,
its to-name, and its event name as label.  The text does not depend on the table
the machine held before the call. -/
theorem C12_graph_export_edges (d : MachineDef Ctx) (m : StateMachine Ctx) :
    (generateDot d m).2 =
      some ("digraph " ++ m.mName ++ " \x7b" ++ "\n" ++ ("\tstart [shape=point];" ++ "\n")
        ++ concat ((exitStates d d.doSetUp).map nodeLine)
        ++ ("\tstart -> " ++ d.InitialState ++ "\n")
        ++ concat (d.doSetUp.map edgeLine)
        ++ ("\x7d" ++ "\n")) ∧
    (d.doSetUp.map edgeLine).length = d.doSetUp.length ∧
    (∀ i : Nat, (d.doSetUp.map edgeLine)[i]? = (d.doSetUp[i]?).map edgeLine) ∧
    (∀ t : Transition, edgeLine t =
      "\t" ++ t.fromState ++ " -> " ++ t.toState ++ " [label=\"" ++ t.event ++ "\"];" ++ "\n") ∧
    (∀ live : List Transition,
      (generateDot d { m with mTransitions := live }).2 = (generateDot d m).2) := by
  refine ⟨by rw [generateDot_eq], List.length_map _ _, fun i => List.getElem?_map _ _ _,
    fun t => rfl, fun live => ?_⟩
  rw [generateDot_eq, generateDot_eq]

set_option maxRecDepth 100000 in
theorem generateDot_CountingSM :
    (generateDot CountingSM.definition CountingSM.started).2 =
      some ("digraph CountingSM \x7b\n" ++ "\tstart [shape=point];\n"
        ++ "\tQuitState [style=\"rounded\", shape=doubleoctagon];\n"
        ++ "\tstart -> StartState\n"
        ++ "\tStartState -> CountState [label=\"StartEvent\"];\n"
        ++ "\tCountState -> StopState [label=\"StopEvent\"];\n"
        ++ "\tStopState -> CountState [label=\"StartEvent\"];\n"
        ++ "\tStartState -> QuitState [label=\"QuitEvent\"];\n"
        ++ "\tCountState -> QuitState [label=\"QuitEvent\"];\n"
        ++ "\tStopState -> QuitState [label=\"QuitEvent\"];\n"
        ++ "\x7d\n") := by
  decide

/-- C13 (graph export, terminal nodes).  The lines with the terminal marker in the
text of `generateDot` are the node lines of the names in the set `exitStates`, which
come right after the two opening lines.  A name is in that set exactly when it is
the to-name of a registered entry whose target kind is terminal, and the set holds
no name twice, however many entries lead to it.  For the machine of test.cpp the
set is `QuitState` alone, and the whole text is evaluated. -/
theorem C13_graph_export_terminal_nodes (d : MachineDef Ctx) (m : StateMachine Ctx) :
    (generateDot d m).2 =
      some ("digraph " ++ m.mName ++ " \x7b" ++ "\n" ++ ("\tstart [shape=point];" ++ "\n")
        ++ concat ((exitStates d d.doSetUp).map
            (fun exitState =>
              "\t" ++ exitState ++ " [style=\"rounded\", shape=doubleoctagon];" ++ "\n"))
        ++ ("\tstart -> " ++ d.InitialState ++ "\n")
        ++ concat (d.doSetUp.map edgeLine)
        ++ ("\x7d" ++ "\n")) ∧
    (exitStates d d.doSetUp).Nodup ∧
    (∀ x : String, x ∈ exitStates d d.doSetUp ↔
      ∃ t ∈ d.doSetUp, d.isExitState t.toState = true ∧ t.toState = x) ∧
    exitStates CountingSM.definition CountingSM.definition.doSetUp = ["QuitState"] ∧
    (generateDot CountingSM.definition CountingSM.started).2 =
      some ("digraph CountingSM \x7b\n" ++ "\tstart [shape=point];\n"
        ++ "\tQuitState [style=\"rounded\", shape=doubleoctagon];\n"
        ++ "\tstart -> StartState\n"
        ++ "\tStartState -> CountState [label=\"StartEvent\"];\n"
        ++ "\tCountState -> StopState [label=\"StopEvent\"];\n"
        ++ "\tStopState -> CountState [label=\"StartEvent\"];\n"
        ++ "\tStartState -> QuitState [label=\"QuitEvent\"];\n"
        ++ "\tCountState -> QuitState [label=\"QuitEvent\"];\n"
        ++ "\tStopState -> QuitState [label=\"QuitEvent\"];\n"
        ++ "\x7d\n") := by
  have hfold := exitStates_fold d d.doSetUp [] List.nodup_nil
  refine ⟨by rw [generateDot_eq]; rfl, hfold.1, fun x => ?_, by decide, ?_⟩
  · have h := hfold.2 x
    simpa [exitStates] using h
  · exact generateDot_CountingSM

/-- C14, the claim as stated fails: on the machine of test.cpp before `start()`, whose
table is empty, `generateDot` leaves the six entries of `doSetUp` in the live table. -/
theorem C14_generateDot_changes_live_table :
    (generateDot CountingSM.definition CountingSM.fresh).1.machine.mTransitions ≠
      CountingSM.fresh.mTransitions ∧
    CountingSM.fresh.mTransitions = [] ∧
    (generateDot CountingSM.definition CountingSM.fresh).1.machine.mTransitions =
      CountingSM.definition.doSetUp := by
  refine ⟨by decide, by decide, by decide⟩

/-- C14 as amended.  For every definition and machine `generateDot` returns normally
and leaves the live table equal to the entries of `doSetUp` (it clears the live
table and fills it again); the current state, the context, the queue, the name,
the allocation count and the callback log are unchanged; so a machine whose live
table already holds exactly the entries of `doSetUp` is left exactly as it was. -/
theorem C14_generateDot_rebuilds_live_table (d : MachineDef Ctx) (m : StateMachine Ctx) :
    (generateDot d m).1.status = Status.returned ∧
    (generateDot d m).1.machine.mTransitions = d.doSetUp ∧
    (generateDot d m).1.machine.mCurrentState = m.mCurrentState ∧
    (generateDot d m).1.machine.mContext = m.mContext ∧
    (generateDot d m).1.machine.mEvents = m.mEvents ∧
    (generateDot d m).1.machine.mName = m.mName ∧
    (generateDot d m).1.machine.allocated = m.allocated ∧
    (generateDot d m).1.machine.calls = m.calls ∧
    (m.mTransitions = d.doSetUp → (generateDot d m).1.machine = m) := by
  rw [generateDot_eq]
  refine ⟨rfl, rfl, rfl, rfl, rfl, rfl, rfl, rfl, fun h => ?_⟩
  simp only [← h]

/-- Witness of the amended C14 on the started machine of test.cpp, whose live table
holds the entries of `doSetUp`. -/
theorem C14_generateDot_rebuilds_live_table_witness :
    (generateDot CountingSM.definition CountingSM.started).1.machine = CountingSM.started :=
  (C14_generateDot_rebuilds_live_table CountingSM.definition CountingSM.started).2.2.2.2.2.2.2.2
    (by decide)

/-! ## Fuel -/

theorem drain_fuel (d : MachineDef Ctx) (k : Nat) :
    ∀ (n : Nat) (m : StateMachine Ctx), (drain d n m).status ≠ Status.outOfFuel →
      drain d (k + n) m = drain d n m := by
  intro n
  induction n with
  | zero =>
    intro m h
    cases hq : m.mEvents with
    | nil => rw [drain_empty d _ m hq, drain_empty d _ m hq]
    | cons front pending => simp [drain, hq] at h
  | succ n ih =>
    intro m h
    cases hq : m.mEvents with
    | nil => rw [drain_empty d _ m hq, drain_empty d _ m hq]
    | cons front pending =>
      rw [← Nat.add_assoc]
      simp only [drain, hq] at h ⊢
      cases hd : dispatch d m with
      | next m1 =>
        simp only [hd] at h ⊢
        exact ih m1 h
      | returned m1 => rfl
      | threw m1 err => rfl

theorem processEvents_fuel (d : MachineDef Ctx) (k n : Nat) (m : StateMachine Ctx)
    (h : (processEvents d n m).status ≠ Status.outOfFuel) :
    processEvents d (k + n) m = processEvents d n m := by
  unfold processEvents at h ⊢
  cases hcur : m.mCurrentState with
  | none =>
    cases hq : m.mEvents with
    | nil => rfl
    | cons front pending =>
      simp only [hcur, hq] at h ⊢
      exact drain_fuel d k n m h
  | some cur =>
    cases hq : m.mEvents with
    | nil => rfl
    | cons front pending =>
      by_cases hx : d.isExitState cur.kind = true
      · simp [hx]
      · have hlive : d.isExitState cur.kind = false := by simpa using hx
        simp only [hcur, hq, hlive, Bool.not_false, if_true] at h ⊢
        exact drain_fuel d k n m h

theorem processEvent_fuel (d : MachineDef Ctx) (k n : Nat) (m : StateMachine Ctx)
    (event : EventPtr) (h : (processEvent d n m event).status ≠ Status.outOfFuel) :
    processEvent d (k + n) m event = processEvent d n m event := by
  cases event with
  | none => exact processEvents_fuel d k n m h
  | some e => exact processEvents_fuel d k n _ h

theorem runOps_fuel (d : MachineDef Ctx) (k n : Nat) (m : StateMachine Ctx)
    (event : EventPtr) (ops ops2 : List Op)
    (h : (processEvent d n m event).status ≠ Status.outOfFuel)
    (htail : runOps d ops (processEvent d n m event).machine =
      runOps d ops2 (processEvent d n m event).machine) :
    runOps d (Op.processEvent event (k + n) :: ops) m =
      runOps d (Op.processEvent event n :: ops2) m := by
  simp only [runOps, runOp, processEvent_fuel d k n m event h, htail]

/-- C15 (end-to-end scenario).  On the machine of test.cpp, `start()` returns
normally, and then the six `processEvent` calls of `main`, each with any fuel of at
least two iterations, all return normally; the machine ends in a state of kind
`QuitState` with the counter of the context equal to 3. -/
theorem C15_end_to_end_scenario (fuel : Nat) :
    (start CountingSM.definition (create "CountingSM")).status = Status.returned ∧
    (runOps CountingSM.definition (CountingSM.scenario (fuel + 2)) CountingSM.started).2 =
      [Status.returned, Status.returned, Status.returned, Status.returned, Status.returned,
        Status.returned] ∧
    (runOps CountingSM.definition (CountingSM.scenario (fuel + 2))
      CountingSM.started).1.mCurrentState.map State.kind = some "QuitState" ∧
    (runOps CountingSM.definition (CountingSM.scenario (fuel + 2))
      CountingSM.started).1.mContext = some { mCounter := 3 } := by
  have h : runOps CountingSM.definition (CountingSM.scenario (fuel + 2)) CountingSM.started =
      runOps CountingSM.definition (CountingSM.scenario 2) CountingSM.started := by
    simp only [CountingSM.scenario]
    refine runOps_fuel _ _ _ _ _ _ _ (by decide) ?_
    refine runOps_fuel _ _ _ _ _ _ _ (by decide) ?_
    refine runOps_fuel _ _ _ _ _ _ _ (by decide) ?_
    refine runOps_fuel _ _ _ _ _ _ _ (by decide) ?_
    refine runOps_fuel _ _ _ _ _ _ _ (by decide) ?_
    refine runOps_fuel _ _ _ _ _ _ _ (by decide) ?_
    rfl
  rw [h]
  refine ⟨by decide, by decide, by decide, by decide⟩

/-! ## Whole-queue drain -/

theorem fire_returned_terminal (d : MachineDef Ctx) (m m1 : StateMachine Ctx) (cur : State)
    (event : EventPtr) (t : Transition) (h : fire d t cur event m = Flow.returned m1) :
    ∃ s : State, m1.mCurrentState = some s ∧ d.isExitState s.kind = true := by
  by_cases h1 : t.isSameState cur = true
  · simp [fire, h1] at h
  · by_cases h2 : d.isExitState t.toState = true
    · simp only [fire, h1, Transition.createToState, h2, if_true, Bool.not_eq_true,
        Bool.not_false] at h
      injection h with h
      subst h
      exact ⟨{ kind := t.toState, id := m.allocated }, by simp [invoke], h2⟩
    · simp [fire, h1, h2, Transition.createToState] at h

theorem forTransitions_returned_terminal (d : MachineDef Ctx) (cur : State)
    (event : EventPtr) (m m1 : StateMachine Ctx) :
    ∀ table : List Transition, forTransitions d cur event table m = Flow.returned m1 →
      ∃ s : State, m1.mCurrentState = some s ∧ d.isExitState s.kind = true := by
  intro table
  induction table with
  | nil => intro h; simp [forTransitions] at h
  | cons u us ih =>
    intro h
    simp only [forTransitions] at h
    cases hc : u.canDoTransition cur event with
    | error err => simp [hc] at h
    | ok b =>
      cases b with
      | true =>
        simp only [hc] at h
        exact fire_returned_terminal d m m1 cur event u h
      | false =>
        simp only [hc] at h
        exact ih h

theorem dispatch_returned_terminal (d : MachineDef Ctx) (m m1 : StateMachine Ctx)
    (h : dispatch d m = Flow.returned m1) :
    ∃ s : State, m1.mCurrentState = some s ∧ d.isExitState s.kind = true := by
  cases hq : m.mEvents with
  | nil => simp [dispatch, hq] at h
  | cons front pending =>
    cases hcur : m.mCurrentState with
    | none => simp [dispatch, hq, hcur] at h
    | some cur =>
      simp only [dispatch, hq, hcur] at h
      exact forTransitions_returned_terminal d cur front _ m1 _ h

theorem postedIn_eq (d : MachineDef Ctx) (m : StateMachine Ctx) (front : EventPtr)
    (pending : List EventPtr) (hq : m.mEvents = front :: pending) :
    (dispatch d m).machine.mEvents = pending ++ postedIn d m := by
  obtain ⟨posted, -, h, -⟩ := dispatch_effect d m front pending hq
  simp [postedIn, hq, h]

theorem drain_returned_live (d : MachineDef Ctx) :
    ∀ (fuel : Nat) (m : StateMachine Ctx),
      (drain d fuel m).status = Status.returned →
      (∀ s : State, (drain d fuel m).machine.mCurrentState = some s →
        d.isExitState s.kind = false) →
      (drain d fuel m).machine.mEvents = [] ∧
      drainPopped d fuel m = m.mEvents ++ drainPosted d fuel m := by
  intro fuel
  induction fuel with
  | zero =>
    intro m hret _
    cases hq : m.mEvents with
    | nil => simp [drain, hq, drainPopped, drainPosted]
    | cons front pending => simp [drain, hq] at hret
  | succ fuel ih =>
    intro m hret hstill
    cases hq : m.mEvents with
    | nil => simp [drain, hq, drainPopped, drainPosted]
    | cons front pending =>
      have hpost := postedIn_eq d m front pending hq
      simp only [drain, hq] at hret hstill
      simp only [drain, drainPopped, drainPosted, hq]
      cases hd : dispatch d m with
      | next m1 =>
        simp only [hd] at hret hstill hpost ⊢
        obtain ⟨h1, h2⟩ := ih m1 hret hstill
        refine ⟨h1, ?_⟩
        rw [h2]
        simp only [Flow.machine] at hpost
        rw [hpost]
        simp
      | returned m1 =>
        simp only [hd] at hstill
        obtain ⟨s, hs, hT⟩ := dispatch_returned_terminal d m m1 hd
        rw [hstill s hs] at hT
        exact absurd hT Bool.false_ne_true
      | threw m1 err =>
        simp [hd] at hret

theorem processEvent_pushed (d : MachineDef Ctx) (fuel : Nat) (m : StateMachine Ctx)
    (arg : EventPtr) :
    processEvent d fuel m arg =
      processEvents d fuel
        { m with mEvents := m.mEvents ++ (Op.processEvent arg fuel).pushed } := by
  cases arg with
  | none => simp [processEvent, Op.pushed]
  | some e => rfl

/-- C16 (whole-queue drain).  `processEvent` is called on a machine with a live
current state whose queue, once the argument (if any) is pushed, is not empty.  If
the call returns normally and the current state it leaves is not terminal, the queue
is empty at return, and the events the loop popped during the call are, in this
order, the events queued at the start followed by every event that callbacks
posted during the call. -/
theorem C16_whole_queue_drain (d : MachineDef Ctx) (fuel : Nat) (m : StateMachine Ctx)
    (cur : State) (arg : EventPtr)
    (hcur : m.mCurrentState = some cur) (hlive : d.isExitState cur.kind = false)
    (hq : m.mEvents ++ (Op.processEvent arg fuel).pushed ≠ [])
    (hret : (processEvent d fuel m arg).status = Status.returned)
    (hstill : ∀ s : State, (processEvent d fuel m arg).machine.mCurrentState = some s →
      d.isExitState s.kind = false) :
    (processEvent d fuel m arg).machine.mEvents = [] ∧
    drainPopped d fuel { m with mEvents := m.mEvents ++ (Op.processEvent arg fuel).pushed } =
      (m.mEvents ++ (Op.processEvent arg fuel).pushed) ++
        drainPosted d fuel
          { m with mEvents := m.mEvents ++ (Op.processEvent arg fuel).pushed } := by
  rw [processEvent_pushed] at hret hstill ⊢
  obtain ⟨front, pending, hq2⟩ := List.exists_cons_of_ne_nil hq
  have hdr := processEvents_drains d
    { m with mEvents := m.mEvents ++ (Op.processEvent arg fuel).pushed } cur front pending
    fuel hcur hlive hq2
  rw [hdr] at hret hstill ⊢
  exact drain_returned_live d fuel _ hret hstill

/-- Witness of C16 on the started machine of test.cpp: `processEvent(StopEvent)`
dispatches the queued `StartEvent` and then the `StopEvent`, and ends in `StopState`
with an empty queue. -/
theorem C16_whole_queue_drain_witness :
    (processEvent CountingSM.definition 2 CountingSM.started
      (some { kind := "StopEvent", payload := 0 })).machine.mEvents = [] :=
  (C16_whole_queue_drain CountingSM.definition 2 CountingSM.started
    { kind := "StartState", id := 0 } (some { kind := "StopEvent", payload := 0 })
    (by decide) (by decide) (by decide) (by decide) (by decide)).1

/-! ## Unique choice on well-formed tables -/

theorem canFire_same_target {table : List Transition} (hinv : ambiguityInvariant table)
    {cur : State} {e : Event} {a b : Transition} (ha : a ∈ table) (hb : b ∈ table)
    (hfa : canFire a cur e) (hfb : canFire b cur e) : a.toState = b.toState :=
  hinv a ha b hb (hfa.2.symm.trans hfb.2) (hfa.1.symm.trans hfb.1)

theorem firstToFire_mem {table : List Transition} {cur : State} {e : Event}
    {t : Transition} (h : firstToFire table cur e = some t) : t ∈ table :=
  List.mem_of_find?_eq_some h

theorem firstToFire_none {table : List Transition} {cur : State} {e : Event}
    (h : firstToFire table cur e = none) : ∀ u ∈ table, ¬ canFire u cur e := by
  intro u hu
  have := List.find?_eq_none.mp h u hu
  simpa using this

theorem firstToFire_perm {table table2 : List Transition} (cur : State) (e : Event)
    (hinv : ambiguityInvariant table) (hperm : table2.Perm table) :
    firstToFire table2 cur e = firstToFire table cur e := by
  cases h1 : firstToFire table cur e with
  | none =>
    cases h2 : firstToFire table2 cur e with
    | none => rfl
    | some t2 =>
      exact absurd (firstToFire_canFire h2)
        (firstToFire_none h1 t2 (hperm.mem_iff.mp (firstToFire_mem h2)))
  | some t1 =>
    cases h2 : firstToFire table2 cur e with
    | none =>
      exact absurd (firstToFire_canFire h1)
        (firstToFire_none h2 t1 (hperm.mem_iff.mpr (firstToFire_mem h1)))
    | some t2 =>
      have hf1 := firstToFire_canFire h1
      have hf2 := firstToFire_canFire h2
      have hto := canFire_same_target hinv (hperm.mem_iff.mp (firstToFire_mem h2))
        (firstToFire_mem h1) hf2 hf1
      have hfrom : t2.fromState = t1.fromState := hf2.2.symm.trans hf1.2
      have hev : t2.event = t1.event := hf2.1.symm.trans hf1.1
      cases t1
      cases t2
      simp_all

theorem fire_on_table (d : MachineDef Ctx) (m : StateMachine Ctx) (cur : State)
    (event : EventPtr) (t : Transition) (table : List Transition) :
    (fire d t cur event { m with mTransitions := table }).machine.mCurrentState =
      (fire d t cur event m).machine.mCurrentState ∧
    (fire d t cur event { m with mTransitions := table }).machine.calls =
      (fire d t cur event m).machine.calls ∧
    (fire d t cur event { m with mTransitions := table }).machine.mContext =
      (fire d t cur event m).machine.mContext ∧
    (fire d t cur event { m with mTransitions := table }).machine.mEvents =
      (fire d t cur event m).machine.mEvents := by
  by_cases h1 : t.isSameState cur = true <;>
    by_cases h2 : d.isExitState t.toState = true <;>
      simp [fire, h1, h2, Transition.createToState, Flow.machine, invoke]

/-- C18 (unique choice on well-formed tables).  On a table that satisfies the
ambiguity invariant, two entries that can fire for the same state and event have
the same to-kind.  For every permutation of such a table the first entry that can
fire for the current state and the front event is the same entry, and dispatching
the event on the permuted table leaves the same current state (so the same kind is
reached), the same callback log (so the same choice between self-loop, transition
and terminal entry), the same context and the same queue. -/
theorem C18_unique_choice (d : MachineDef Ctx) (m : StateMachine Ctx) (cur : State)
    (e : Event) (pending : List EventPtr) (permuted : List Transition)
    (hcur : m.mCurrentState = some cur) (hq : m.mEvents = some e :: pending)
    (hinv : ambiguityInvariant m.mTransitions) (hperm : permuted.Perm m.mTransitions) :
    (∀ a ∈ m.mTransitions, ∀ b ∈ m.mTransitions, canFire a cur e → canFire b cur e →
      a.toState = b.toState) ∧
    firstToFire permuted cur e = firstToFire m.mTransitions cur e ∧
    (dispatch d { m with mTransitions := permuted }).machine.mCurrentState =
      (dispatch d m).machine.mCurrentState ∧
    (dispatch d { m with mTransitions := permuted }).machine.calls =
      (dispatch d m).machine.calls ∧
    (dispatch d { m with mTransitions := permuted }).machine.mContext =
      (dispatch d m).machine.mContext ∧
    (dispatch d { m with mTransitions := permuted }).machine.mEvents =
      (dispatch d m).machine.mEvents := by
  have hfirst := firstToFire_perm cur e hinv hperm
  refine ⟨fun a ha b hb hfa hfb => canFire_same_target hinv ha hb hfa hfb, hfirst, ?_⟩
  rw [dispatch_present d { m with mTransitions := permuted } cur e pending hcur hq,
    dispatch_present d m cur e pending hcur hq]
  cases h : firstToFire m.mTransitions cur e with
  | none =>
    rw [forTransitions_no_match d cur e _ m.mTransitions (firstToFire_none h),
      forTransitions_no_match d cur e _ permuted (firstToFire_none (hfirst.trans h))]
    simp [Flow.machine]
  | some t =>
    rw [forTransitions_first d cur e _ t m.mTransitions h,
      forTransitions_first d cur e _ t permuted (hfirst.trans h)]
    exact fire_on_table d { m with mEvents := pending } cur (some e) t permuted

/-- Witness of C18 on the started machine of test.cpp and its table reversed. -/
theorem C18_unique_choice_witness :
    firstToFire CountingSM.definition.doSetUp.reverse { kind := "StartState", id := 0 }
        { kind := "StartEvent", payload := 0 } =
      firstToFire CountingSM.started.mTransitions { kind := "StartState", id := 0 }
        { kind := "StartEvent", payload := 0 } ∧
    (dispatch CountingSM.definition
      { CountingSM.started with
        mTransitions := CountingSM.definition.doSetUp.reverse }).machine.mCurrentState =
      (dispatch CountingSM.definition CountingSM.started).machine.mCurrentState := by
  have h := C18_unique_choice CountingSM.definition CountingSM.started
    { kind := "StartState", id := 0 } { kind := "StartEvent", payload := 0 } []
    CountingSM.definition.doSetUp.reverse (by decide) (by decide) (by decide)
    (List.reverse_perm _)
  exact ⟨h.2.1, h.2.2.1⟩

/-! ## Termination of the drain -/

theorem dispatch_noPosts (d : MachineDef Ctx) (hno : NoPosts d) (m : StateMachine Ctx)
    (front : EventPtr) (pending : List EventPtr) (hq : m.mEvents = front :: pending) :
    (dispatch d m).machine.mEvents = pending := by
  obtain ⟨posted, -, h, -, -, hp⟩ := dispatch_effect d m front pending hq
  rw [h, hp hno, List.append_nil]

theorem drain_terminates (d : MachineDef Ctx) (hno : NoPosts d) :
    ∀ (fuel : Nat) (m : StateMachine Ctx), m.mEvents.length ≤ fuel →
      (drain d fuel m).status ≠ Status.outOfFuel := by
  intro fuel
  induction fuel with
  | zero =>
    intro m hlen
    have hq : m.mEvents = [] := List.length_eq_zero.mp (Nat.le_zero.mp hlen)
    simp [drain, hq]
  | succ fuel ih =>
    intro m hlen
    cases hq : m.mEvents with
    | nil => simp [drain, hq]
    | cons front pending =>
      have hp := dispatch_noPosts d hno m front pending hq
      simp only [drain, hq]
      cases hd : dispatch d m with
      | next m1 =>
        simp only [hd, Flow.machine] at hp ⊢
        apply ih m1
        rw [hp]
        rw [hq] at hlen
        exact Nat.le_of_succ_le_succ hlen
      | returned m1 => simp
      | threw m1 err => simp

theorem drainPopped_length (d : MachineDef Ctx) (hno : NoPosts d) :
    ∀ (fuel : Nat) (m : StateMachine Ctx),
      (drainPopped d fuel m).length ≤ m.mEvents.length := by
  intro fuel
  induction fuel with
  | zero => intro m; simp [drainPopped]
  | succ fuel ih =>
    intro m
    cases hq : m.mEvents with
    | nil => simp [drainPopped, hq]
    | cons front pending =>
      have hp := dispatch_noPosts d hno m front pending hq
      simp only [drainPopped, hq]
      cases hd : dispatch d m with
      | next m1 =>
        simp only [hd, Flow.machine] at hp ⊢
        have := ih m1
        rw [hp] at this
        simpa using this
      | returned m1 => simp
      | threw m1 err => simp

theorem drain_defined (d : MachineDef Ctx) :
    ∀ (fuel : Nat) (m : StateMachine Ctx),
      (drain d fuel m).status ≠ Status.undefinedBehaviour := by
  intro fuel
  induction fuel with
  | zero =>
    intro m
    cases hq : m.mEvents <;> simp [drain, hq]
  | succ fuel ih =>
    intro m
    cases hq : m.mEvents with
    | nil => simp [drain, hq]
    | cons front pending =>
      simp only [drain, hq]
      cases hd : dispatch d m with
      | next m1 => exact ih m1
      | returned m1 => simp
      | threw m1 err => simp

theorem fire_keeps_current (d : MachineDef Ctx) (m : StateMachine Ctx) (cur : State)
    (event : EventPtr) (t : Transition) (hcur : m.mCurrentState = some cur) :
    ∃ s : State, (fire d t cur event m).machine.mCurrentState = some s := by
  by_cases h1 : t.isSameState cur = true <;>
    by_cases h2 : d.isExitState t.toState = true <;>
      simp [fire, h1, h2, Transition.createToState, Flow.machine, invoke, hcur]

theorem drain_present_status (d : MachineDef Ctx) (hno : NoPosts d) :
    ∀ (fuel : Nat) (m : StateMachine Ctx) (cur : State), m.mCurrentState = some cur →
      (∀ x ∈ m.mEvents, x ≠ none) →
      (drain d fuel m).status = Status.returned ∨
      (drain d fuel m).status = Status.outOfFuel ∨
      ∃ (s : State) (e : Event),
        (drain d fuel m).status = Status.threw (noTransitionFound s (some e)) := by
  intro fuel
  induction fuel with
  | zero =>
    intro m cur _ _
    cases hq : m.mEvents with
    | nil => simp [drain, hq]
    | cons front pending => simp [drain, hq]
  | succ fuel ih =>
    intro m cur hcur hpres
    cases hq : m.mEvents with
    | nil => simp [drain, hq]
    | cons front pending =>
      have hp := dispatch_noPosts d hno m front pending hq
      rw [hq] at hpres
      cases front with
      | none => exact absurd rfl (hpres none (List.mem_cons_self _ _))
      | some e =>
        have hd := dispatch_present d m cur e pending hcur hq
        simp only [drain, hq]
        cases hf : firstToFire m.mTransitions cur e with
        | none =>
          rw [forTransitions_no_match d cur e _ m.mTransitions (firstToFire_none hf)] at hd
          rw [hd]
          exact Or.inr (Or.inr ⟨cur, e, rfl⟩)
        | some t =>
          rw [forTransitions_first d cur e _ t m.mTransitions hf] at hd
          obtain ⟨s, hs⟩ := fire_keeps_current d { m with mEvents := pending } cur (some e) t hcur
          rw [← hd] at hs
          cases hdm : dispatch d m with
          | next m1 =>
            simp only [hdm, Flow.machine] at hp hs ⊢
            apply ih m1 s hs
            rw [hp]
            exact fun x hx => hpres x (List.mem_cons_of_mem _ hx)
          | returned m1 => exact Or.inl rfl
          | threw m1 err =>
            rw [hd] at hdm
            exact absurd hdm (fire_throws_nothing d _ cur (some e) t m1 err)

theorem dispatch_absent (d : MachineDef Ctx) (m : StateMachine Ctx) (cur : State)
    (pending : List EventPtr) (hcur : m.mCurrentState = some cur)
    (hq : m.mEvents = none :: pending) :
    dispatch d m = Flow.threw { m with mEvents := pending } Error.bad_typeid := by
  simp only [dispatch, hq, hcur]
  exact forTransitions_absent d cur _ m.mTransitions

theorem drain_status (d : MachineDef Ctx) (hno : NoPosts d) :
    ∀ (fuel : Nat) (m : StateMachine Ctx) (cur : State), m.mCurrentState = some cur →
      (drain d fuel m).status = Status.returned ∨
      (drain d fuel m).status = Status.outOfFuel ∨
      (∃ (s : State) (e : Event),
        (drain d fuel m).status = Status.threw (noTransitionFound s (some e))) ∨
      ((drain d fuel m).status = Status.threw Error.bad_typeid ∧ none ∈ m.mEvents) := by
  intro fuel
  induction fuel with
  | zero =>
    intro m cur _
    cases hq : m.mEvents with
    | nil => simp [drain, hq]
    | cons front pending => simp [drain, hq]
  | succ fuel ih =>
    intro m cur hcur
    cases hq : m.mEvents with
    | nil => simp [drain, hq]
    | cons front pending =>
      have hp := dispatch_noPosts d hno m front pending hq
      cases front with
      | none =>
        simp [drain, hq, dispatch_absent d m cur pending hcur hq]
      | some e =>
        have hd := dispatch_present d m cur e pending hcur hq
        simp only [drain, hq]
        cases hf : firstToFire m.mTransitions cur e with
        | none =>
          rw [forTransitions_no_match d cur e _ m.mTransitions (firstToFire_none hf)] at hd
          rw [hd]
          exact Or.inr (Or.inr (Or.inl ⟨cur, e, rfl⟩))
        | some t =>
          rw [forTransitions_first d cur e _ t m.mTransitions hf] at hd
          obtain ⟨s, hs⟩ := fire_keeps_current d { m with mEvents := pending } cur (some e) t hcur
          rw [← hd] at hs
          cases hdm : dispatch d m with
          | next m1 =>
            simp only [hdm, Flow.machine] at hp hs ⊢
            rcases ih m1 s hs with h | h | h | ⟨h, hmem⟩
            · exact Or.inl h
            · exact Or.inr (Or.inl h)
            · exact Or.inr (Or.inr (Or.inl h))
            · rw [hp] at hmem
              exact Or.inr (Or.inr (Or.inr ⟨h, List.mem_cons_of_mem _ hmem⟩))
          | returned m1 => exact Or.inl rfl
          | threw m1 err =>
            rw [hd] at hdm
            exact absurd hdm (fire_throws_nothing d _ cur (some e) t m1 err)

theorem processEvents_status (d : MachineDef Ctx) (hno : NoPosts d) (m : StateMachine Ctx)
    (cur : State) (hcur : m.mCurrentState = some cur) :
    (processEvents d m.mEvents.length m).status = Status.returned ∨
    (∃ (s : State) (e : Event),
      (processEvents d m.mEvents.length m).status =
        Status.threw (noTransitionFound s (some e))) ∨
    ((processEvents d m.mEvents.length m).status = Status.threw Error.bad_typeid ∧
      none ∈ m.mEvents) := by
  unfold processEvents
  simp only [hcur]
  by_cases hx : d.isExitState cur.kind = true
  · simp [hx]
  · have hlive : d.isExitState cur.kind = false := by simpa using hx
    cases hq : m.mEvents with
    | nil => simp [hlive]
    | cons front pending =>
      simp only [hlive, Bool.not_false, if_true]
      rw [← hq]
      rcases drain_status d hno m.mEvents.length m cur hcur with h | h | h | h
      · exact Or.inl h
      · exact absurd h (drain_terminates d hno _ m (Nat.le_refl _))
      · exact Or.inr (Or.inl h)
      · exact Or.inr (Or.inr h)

/-- C20, the claim as stated fails: on the machine of test.cpp with callbacks that
post nothing, after `start()` and `addEvent` with a null pointer, the queue holds one
entry and `processEvent()` ends with `std::bad_typeid`, which is neither a normal
return nor the exception of `noTransitionFound`. -/
theorem C20_null_entry_ends_with_bad_typeid :
    CountingSM.quietNull.mEvents = [none] ∧
    (processEvent CountingSM.quiet 1 CountingSM.quietNull none).status =
      Status.threw Error.bad_typeid ∧
    ¬ ((processEvent CountingSM.quiet 1 CountingSM.quietNull none).status = Status.returned ∨
      ∃ (s : State) (e : Event),
        (processEvent CountingSM.quiet 1 CountingSM.quietNull none).status =
          Status.threw (noTransitionFound s (some e))) := by
  have h : (processEvent CountingSM.quiet 1 CountingSM.quietNull none).status =
      Status.threw Error.bad_typeid := by decide
  refine ⟨by decide, h, ?_⟩
  rw [h]
  simp [noTransitionFound]

/-- C20 as amended (termination of the drain).  No callback of the definition posts
events and the machine has a current state; its queue holds `k` entries.  Then
`processEvents` with fuel for `k` iterations ends: normally, or with the exception
of `noTransitionFound` for some state and event, or with `std::bad_typeid`, the
last only when the queue held a null pointer; more fuel changes nothing; for every
fuel the loop pops at most `k` events; an iteration leaves in the queue exactly the
events that were behind the front one, and creates at most one state; and when
every queue entry is a present event, the call ends normally or with the exception
of `noTransitionFound`. -/
theorem C20_drain_terminates (d : MachineDef Ctx) (hno : NoPosts d) (m : StateMachine Ctx)
    (cur : State) (hcur : m.mCurrentState = some cur) :
    ((processEvents d m.mEvents.length m).status = Status.returned ∨
      (∃ (s : State) (e : Event),
        (processEvents d m.mEvents.length m).status =
          Status.threw (noTransitionFound s (some e))) ∨
      ((processEvents d m.mEvents.length m).status = Status.threw Error.bad_typeid ∧
        none ∈ m.mEvents)) ∧
    (∀ extra : Nat,
      processEvents d (extra + m.mEvents.length) m = processEvents d m.mEvents.length m) ∧
    (∀ fuel : Nat, (drainPopped d fuel m).length ≤ m.mEvents.length) ∧
    (∀ (n : StateMachine Ctx) (front : EventPtr) (pending : List EventPtr),
      n.mEvents = front :: pending →
        (dispatch d n).machine.mEvents = pending ∧
        (dispatch d n).machine.allocated ≤ n.allocated + 1) ∧
    ((∀ x ∈ m.mEvents, x ≠ none) →
      (processEvents d m.mEvents.length m).status = Status.returned ∨
      ∃ (s : State) (e : Event),
        (processEvents d m.mEvents.length m).status =
          Status.threw (noTransitionFound s (some e))) := by
  have hstatus := processEvents_status d hno m cur hcur
  have hterm : (processEvents d m.mEvents.length m).status ≠ Status.outOfFuel := by
    rcases hstatus with h | ⟨s, e, h⟩ | ⟨h, -⟩ <;> rw [h] <;> simp [noTransitionFound]
  refine ⟨hstatus, fun extra => processEvents_fuel d extra _ m hterm,
    fun fuel => drainPopped_length d hno fuel m, fun n front pending hq =>
      ⟨dispatch_noPosts d hno n front pending hq, dispatch_allocates_at_most_one d n⟩, ?_⟩
  intro hpres
  rcases hstatus with h | h | ⟨-, hmem⟩
  · exact Or.inl h
  · exact Or.inr h
  · exact absurd rfl (hpres none hmem)

/-- Witness of the amended C20 on the machine of test.cpp with callbacks that post
nothing: in `StartState` with a `StopEvent` and a `StartEvent` queued the call ends,
after at most two pops, normally or with the exception of `noTransitionFound`; with
a null pointer queued it ends in one of the three ways. -/
theorem C20_drain_terminates_witness :
    ((processEvents CountingSM.quiet 2 CountingSM.stopping).status = Status.returned ∨
      ∃ (s : State) (e : Event),
        (processEvents CountingSM.quiet 2 CountingSM.stopping).status =
          Status.threw (noTransitionFound s (some e))) ∧
    (∀ fuel : Nat, (drainPopped CountingSM.quiet fuel CountingSM.stopping).length ≤ 2) ∧
    ((processEvents CountingSM.quiet 1 CountingSM.quietNull).status = Status.returned ∨
      (∃ (s : State) (e : Event),
        (processEvents CountingSM.quiet 1 CountingSM.quietNull).status =
          Status.threw (noTransitionFound s (some e))) ∨
      ((processEvents CountingSM.quiet 1 CountingSM.quietNull).status =
          Status.threw Error.bad_typeid ∧
        none ∈ CountingSM.quietNull.mEvents)) :=
  ⟨(C20_drain_terminates CountingSM.quiet (fun _ _ _ => ⟨rfl, rfl, rfl⟩) CountingSM.stopping
      { kind := "StartState", id := 0 } (by decide)).2.2.2.2 (by decide),
   (C20_drain_terminates CountingSM.quiet (fun _ _ _ => ⟨rfl, rfl, rfl⟩) CountingSM.stopping
      { kind := "StartState", id := 0 } (by decide)).2.2.1,
   (C20_drain_terminates CountingSM.quiet (fun _ _ _ => ⟨rfl, rfl, rfl⟩) CountingSM.quietNull
      { kind := "StartState", id := 0 } (by decide)).1⟩

/-! ## What `start` keeps -/

theorem start_table_queue (d : MachineDef Ctx) (m : StateMachine Ctx) :
    (start d m).status = Status.returned ∧
    (start d m).machine.mTransitions = m.mTransitions ++ d.doSetUp ∧
    (start d m).machine.mEvents =
      m.mEvents ++ (d.onEntry d.InitialState none (some d.makeContext)).2 ++
        (d.run d.InitialState none
          (d.onEntry d.InitialState none (some d.makeContext)).1).2 := by
  simp [start, runSetUp_appends, invoke]

/-- C21 (`start` does not reset the table or the queue).  For every definition and
machine, `start` returns normally and leaves the table equal to the entries it held
followed by the entries of `doSetUp`, and the queue equal to the events it held, in
order, followed by what the two bootstrap callbacks posted.  Two `start` calls
therefore leave the old table followed by two copies of the entries of `doSetUp`
(on a new machine: `doSetUp ++ doSetUp`).  `generateDot` leaves exactly one copy
of the entries of `doSetUp` in the live table, whatever the table held, also after
two `start` calls.  On the machine of test.cpp two `start` calls store twelve
entries and keep the `StartEvent` posted during the first call queued. -/
theorem C21_start_keeps_table_and_queue (d : MachineDef Ctx) (m : StateMachine Ctx) :
    (start d m).status = Status.returned ∧
    (start d m).machine.mTransitions = m.mTransitions ++ d.doSetUp ∧
    (∃ posted : List EventPtr, (start d m).machine.mEvents = m.mEvents ++ posted) ∧
    (start d (start d m).machine).machine.mTransitions =
      m.mTransitions ++ d.doSetUp ++ d.doSetUp ∧
    (∀ name : String,
      (start d (start d (create name)).machine).machine.mTransitions =
        d.doSetUp ++ d.doSetUp) ∧
    (generateDot d m).1.machine.mTransitions = d.doSetUp ∧
    (generateDot d (start d (start d m).machine).machine).1.machine.mTransitions =
      d.doSetUp ∧
    (start CountingSM.definition CountingSM.started).machine.mTransitions =
      CountingSM.definition.doSetUp ++ CountingSM.definition.doSetUp ∧
    (start CountingSM.definition CountingSM.started).machine.mEvents =
      [some { kind := "StartEvent", payload := 0 },
       some { kind := "StartEvent", payload := 0 }] := by
  obtain ⟨h1, h2, h3⟩ := start_table_queue d m
  refine ⟨h1, h2, ⟨_, by rw [h3, List.append_assoc]⟩, ?_, fun name => ?_, ?_, ?_,
    by decide, by decide⟩
  · rw [(start_table_queue d _).2.1, h2]
  · rw [(start_table_queue d _).2.1, (start_table_queue d _).2.1]
    rfl
  · rw [generateDot_eq]
  · rw [generateDot_eq]

end statemachine
